import Mathlib
/-!
Verification development for the `deneb` chart-recipe library.

This file gives a shallow Lean embedding of the pure logic of the
repository's source files (`utils.py`, `correlation_matrix.py`,
`pairplot.py`, `themes.py`) and proves, or refutes, the frozen claims
about that logic.  External rendering machinery (the charting engine
itself, subprocess calls, notebook display) is out of scope; only the
data manipulation the repository performs is modelled.
-/
set_option maxHeartbeats 1000000

namespace DenebUtils

/-! ### Hex / RGB conversion, from `utils.py` (`rgb2hex`, `hex2rgb`)

`rgb2hex` is `"#{:02x}{:02x}{:02x}".format(r, g, b)`: each component is
rendered in lowercase hexadecimal, zero-padded to width two.  `hex2rgb`
strips leading `#` characters and parses the three two-character slices
`h[0:2]`, `h[2:4]`, `h[4:6]` with `int(_, 16)`.  The parser `int(_, 16)`
is modelled on plain hexadecimal digit strings (both cases); it fails on
the empty string or on a non-digit character.
-/
/-- Lowercase hexadecimal digit character for a value `d < 16`,
as produced by Python's `"{:x}"` formatting. -/
def hexDigitChar (d : Nat) : Char :=
  if d < 10 then Char.ofNat (48 + d) else Char.ofNat (87 + d)

/-- Hexadecimal digits of `n` (most significant first), the unpadded
output of `"{:x}".format(n)`. -/
def toHexAux (n : Nat) (acc : List Char) : List Char :=
  let acc2 := hexDigitChar (n % 16) :: acc
  if h : n < 16 then acc2 else toHexAux (n / 16) acc2
termination_by n
decreasing_by
  exact Nat.div_lt_self (by omega) (by omega)

/-- Python `"{:02x}".format(n)`: hexadecimal, zero-padded to width 2. -/
def format02x (n : Nat) : List Char :=
  let ds := toHexAux n []
  if ds.length = 1 then '0' :: ds else ds

/-- Embedding of `utils.rgb2hex`: `"#{:02x}{:02x}{:02x}".format(r, g, b)`. -/
def rgb2hex (r g b : Nat) : String :=
  ⟨'#' :: (format02x r ++ format02x g ++ format02x b)⟩

/-- Value of one hexadecimal digit character, as accepted by `int(_, 16)`. -/
def hexCharVal (c : Char) : Option Nat :=
  if '0' ≤ c ∧ c ≤ '9' then some (c.toNat - 48)
  else if 'a' ≤ c ∧ c ≤ 'f' then some (c.toNat - 87)
  else if 'A' ≤ c ∧ c ≤ 'F' then some (c.toNat - 55)
  else none

/-- Embedding of Python `int(s, 16)` on digit strings: fails on the empty
string or any non-digit; otherwise folds up the base-16 value. -/
def parseHex (cs : List Char) : Option Nat :=
  match cs with
  | [] => none
  | _ :: _ => cs.foldl (fun acc c => acc.bind fun v => (hexCharVal c).map fun d => 16 * v + d) (some 0)

/-- Embedding of `utils.hex2rgb`: strip leading `#`, parse the slices
`h[0:2]`, `h[2:4]`, `h[4:6]` in base 16. -/
def hex2rgb (s : String) : Option (Nat × Nat × Nat) :=
  let h := s.data.dropWhile (fun c => c = '#')
  match parseHex ((h.drop 0).take 2), parseHex ((h.drop 2).take 2), parseHex ((h.drop 4).take 2) with
  | some r, some g, some b => some (r, g, b)
  | _, _, _ => none

/-! ### `latex2unicode`, from `utils.py`

The function dispatches on the exact runtime type of its argument:
a `str` is converted with `flatlatex`, a `list` is converted entry by
entry, and anything else reaches `raise NotImplementedError`.  The
`flatlatex` converter itself is an external collaborator, modelled as an
arbitrary function `convert : String → String`.
-/
/-- Runtime shape of the `latex` argument of `utils.latex2unicode`:
a string, a list of strings, or a value of any other type. -/
inductive PyText where
  | str (s : String)
  | lst (ls : List String)
  | other
deriving DecidableEq

/-- Embedding of `utils.latex2unicode`, parameterized by the external
`flatlatex` converter. `Except` models raising: `.error` is the
`NotImplementedError` branch. -/
def latex2unicode (convert : String → String) : PyText → Except String PyText
  | .str s => .ok (.str (convert s))
  | .lst ls => .ok (.lst (ls.map convert))
  | .other => .error "NotImplementedError"

/-! ### `np2df`, from `utils.py`

A 2-D numpy array is a column count together with its rows (the column
count is carried separately so that empty arrays keep their shape).
`np2df` checks that all arrays share one width, defaults and checks the
sample and dimension labels, builds one long dataframe whose rows carry
their sample identifier, and optionally drops dimensions (a missing
label in `drop_dim` raises a `KeyError` in pandas `DataFrame.drop`).
-/
/-- A 2-D numpy array of shape `(rows.length, ncols)`. -/
structure NpArray2 where
  ncols : Nat
  rows : List (List ℚ)

/-- The long-format dataframe `np2df` produces: dimension column labels,
the sample-identifier field name, and rows pairing the numeric block
with the sample identifier. -/
structure LongDF where
  labels : List String
  field : String
  rows : List (List ℚ × String)

/-- Exceptions `np2df` can raise. -/
inductive NpErr where
  | assertFail
  | indexErr
  | keyErr
deriving DecidableEq

/-- Embedding of `utils.np2df` (after the scalar-to-list wrap of the
`samples` argument; a non-list `labels_samples` is likewise passed
already wrapped). -/
def np2df (samples : List NpArray2) (field : String)
    (labels_samples : Option (List String)) (labels_dim : Option (List String))
    (drop_dim : Option (List String)) : Except NpErr LongDF :=
  match samples with
  | [] => .error .indexErr
  | s0 :: _ =>
    let dim_samples := s0.ncols
    if samples.all (fun s => s.ncols = dim_samples) then
      let labs := match labels_samples with
        | none => (List.range samples.length).map (fun i => "sample " ++ toString (i + 1))
        | some ls => ls
      if labs.length = samples.length then
        let ldim := match labels_dim with
          | none => (List.range dim_samples).map (fun i => "dim " ++ toString (i + 1))
          | some ls => ls
        if ldim.length = dim_samples then
          let rows := (samples.zip labs).flatMap
            (fun p => p.1.rows.map (fun r => (r, p.2)))
          match drop_dim with
          | none => .ok ⟨ldim, field, rows⟩
          | some dd =>
            if dd.all (fun d => ldim.contains d) then
              .ok ⟨ldim.filter (fun l => ¬ dd.contains l), field,
                rows.map (fun rw =>
                  (((ldim.zip rw.1).filter (fun p => ¬ dd.contains p.1)).map (fun p => p.2),
                   rw.2))⟩
            else .error .keyErr
        else .error .assertFail
      else .error .assertFail
    else .error .assertFail

/-- The recovery step of claim C6: group the long dataframe on the
sample-identifier value and drop that column, keeping the numeric block. -/
def groupBlock (df : LongDF) (label : String) : List (List ℚ) :=
  (df.rows.filter (fun rw => rw.2 = label)).map (fun rw => rw.1)

end DenebUtils

namespace DenebPairplot

/-! ### The initial column guard of `pairplot`, from `pairplot.py`

```python
labels_dim = [c for c in list(df.columns) if c != field]
assert len(list(df.columns)) == len(labels_dim) + 1
```

A pandas `DataFrame.columns` is a positional sequence of labels that may
contain duplicates; it is modelled as a `List String`.  The guard is the
boolean value of the asserted condition.
-/
/-- Embedding of `pairplot`'s first two lines: `True` exactly when the
assertion `len(df.columns) == len(labels_dim) + 1` passes. -/
def pairplotGuard (cols : List String) (field : String) : Bool :=
  let labels_dim := cols.filter (fun c => c ≠ field)
  cols.length = labels_dim.length + 1

/-! ### The `limits` argument guard of `pairplot`, from `pairplot.py`

```python
if limits is not None:
    assert type(limits) == list
    if type(limits[0]) == float:
        assert len(limits) == 2
        limits_dim = {d: limits for d in labels_dim}
    else:
        assert type(limits[0]) == list
        limits_dim = {d: limits[i] for i, d in enumerate(labels_dim)}
```

Python values reaching this guard are floats or (nested) lists, modelled
by `PyVal`.  A failed `assert` raises `AssertionError`; an out-of-range
subscript (`limits[0]` on an empty list, or `limits[i]` in the dict
comprehension) raises `IndexError`.  The resulting `limits_dim` dict is
modelled as an association list in `labels_dim` order (the dimension
labels, taken from distinct dataframe columns, are pairwise distinct).
-/
/-- Dynamic Python value for the `limits` argument: a float or a list. -/
inductive PyVal where
  | num (q : ℚ)
  | lst (vs : List PyVal)

/-- Exceptions the guard can raise. -/
inductive PyErr where
  | assertFail
  | indexErr
deriving DecidableEq

/-- Embedding of the `limits` shape guard of `pairplot`: returns the
`limits_dim` association list (or `none` inside `.ok` when `limits` is
`None`), or the exception the guard raises. -/
def checkLimits (labels_dim : List String) :
    Option PyVal → Except PyErr (Option (List (String × PyVal)))
  | none => .ok none
  | some (.num _) => .error .assertFail
  | some (.lst []) => .error .indexErr
  | some (.lst (PyVal.num q :: rest)) =>
    if rest.length + 1 = 2 then
      .ok (some (labels_dim.map (fun d => (d, PyVal.lst (PyVal.num q :: rest)))))
    else .error .assertFail
  | some (.lst (PyVal.lst l0 :: rest)) =>
    if labels_dim.length ≤ rest.length + 1 then
      .ok (some (labels_dim.zip ((PyVal.lst l0 :: rest).take labels_dim.length)))
    else .error .indexErr

end DenebPairplot

namespace DenebCorr

/-! ### `correlation_matrix`, from `correlation_matrix.py`

The function first filters the requested metrics to actual dataframe
columns (`valid_metrics = [m for m in metrics if m in df.columns]`) and
selects them (`df[valid_metrics]`, which raises a `KeyError` on a
missing column).  The correlation matrix is melted into `(var1, var2,
correlation)` triples: `var1` ranges over rows of the correlation table
and `var2` over its columns, both ordered like `valid_metrics`.  Sparse
rendering applies `transform_filter("datum.var1 < datum.var2")`, a
lexicographic comparison of the metric *names*, and the text color uses
`alt.condition("datum.correlation > {white_font}", white, black)`, a
signed comparison of the correlation value.  Numeric correlation values
are modelled as rationals; their computation is external (numpy).
-/
/-- Minimal dataframe model for `correlation_matrix`: positional column
labels and the numeric data of each column. -/
structure DataFrame where
  cols : List String
  col : String → List ℚ

/-- Embedding of `valid_metrics = [m for m in metrics if m in df.columns]`. -/
def validMetrics (cols metrics : List String) : List String :=
  metrics.filter (fun m => cols.contains m)

/-- Embedding of pandas column selection `df[names]`: `none` models the
`KeyError` raised when a requested name is not a column. -/
def selectColumns (df : DataFrame) (names : List String) :
    Option (List (String × List ℚ)) :=
  if names.all (fun n => df.cols.contains n) then
    some (names.map (fun n => (n, df.col n)))
  else none

/-! ### Text-label color (claim C3) -/
/-- Embedding of the label-color condition
`alt.condition(f"datum.correlation > {white_font}", white, black)`:
white exactly when the signed correlation exceeds the threshold. -/
def labelColor (white_font corr : ℚ) : String :=
  if corr > white_font then "white" else "black"

/-- Modelled from the spec's words, for refinement comparison only: the
claimed rule compares the correlation *magnitude* against the threshold. -/
def labelColorMagnitude (white_font corr : ℚ) : String :=
  if |corr| > white_font then "white" else "black"

/-! ### Sparse filtering (claim C2) -/
/-- Cells `(var1, var2)` of the melted correlation table: `var1` is the
row metric, `var2` the column metric; pandas `melt` stacks column by
column, so `var2` is the outer loop. -/
def meltCells (ms : List String) : List (String × String) :=
  ms.flatMap (fun v2 => ms.map (fun v1 => (v1, v2)))

/-- Lexicographic comparison of character lists by code point, the
semantics of the JavaScript `<` operator that Vega applies to the string
fields in `"datum.var1 < datum.var2"`. -/
def charsLtB : List Char → List Char → Bool
  | _, [] => false
  | [], _ :: _ => true
  | a :: as, b :: bs =>
    if a.toNat < b.toNat then true
    else if b.toNat < a.toNat then false
    else charsLtB as bs

/-- String comparison by code points, as evaluated by the Vega filter. -/
def strLtB (a b : String) : Bool := charsLtB a.data b.data

/-- Embedding of the render-time predicate
`transform_filter("datum.var1 < datum.var2")`: a cell is kept when its
row metric *name* is lexicographically smaller than its column metric
name. -/
def sparseKeep (cell : String × String) : Bool :=
  strLtB cell.1 cell.2

/-- The cells remaining after the sparse filter. -/
def sparseFilter (cells : List (String × String)) : List (String × String) :=
  cells.filter sparseKeep

end DenebCorr

namespace DenebMatrix

/-! ### The pairwise grid assembly, from `pairplot.py` (`class Matrix`)

`Matrix.fields(*labels_dim)` sets `rows = cols = labels_dim` and
allocates an N×N grid of `None`.  `pairplot` then runs, in source order,
`.upper(make_upper)`, `.diag(make_diag)`, `.lower(make_lower)`:

* `upper`: for `i` over rows, `j` over cols, if `j > i`, the cell
  `grid[i][j]` is assigned `make_chart(cols[j], rows[i])` with
  `no_x = no_y = True`;
* `diag`: for `i` over rows, `grid[i][i]` is assigned `make_chart(rows[i])`
  with `no_x = (i == N-1 ? False : True)`, `no_y = (i == 0 ? False : True)`;
* `lower`: for `i`, `j` over rows, if `i > j`, `grid[i][j]` is assigned
  `make_chart(rows[j], rows[i])` with `no_x = (i == N-1 ? False : True)`,
  `no_y = (j == 0 ? False : True)`.

The mutable 2-D array is embedded as a function `Nat → Nat → Option Cell`
(out-of-range indices, which the loops never touch, stay `None`), and the
sub-chart a builder returns is recorded symbolically as a `Cell` holding
the builder's arguments: `upperC x y` / `lowerC x y` is the scatter with
x-encoding field `x` and y-encoding field `y`, and `diagC r` the binned
histogram of field `r`.  The `interactive` wrapper does not change which
cell is populated and is not modelled.  A parallel instrumentation with
the same loop structure counts how many times each position is written.
-/
/-- Symbolic content of a grid cell: which builder produced it, with
which field arguments and axis-suppression flags. -/
inductive Cell where
  | diagC (r : String) (no_x no_y : Bool)
  | upperC (x y : String) (no_x no_y : Bool)
  | lowerC (x y : String) (no_x no_y : Bool)
deriving DecidableEq

/-- In-place update of one slot of a 2-D array viewed as a function. -/
def updAt {β : Type} (g : Nat → Nat → β) (i j : Nat) (f : β → β) : Nat → Nat → β :=
  fun i2 j2 => if i2 = i ∧ j2 = j then f (g i2 j2) else g i2 j2

/-- Assignment `grid[i][j] = v`. -/
def setCell (g : Nat → Nat → Option Cell) (i j : Nat) (v : Cell) :
    Nat → Nat → Option Cell :=
  updAt g i j (fun _ => some v)

/-- The grid allocated by `Matrix.fields`: all slots `None`. -/
def emptyGrid : Nat → Nat → Option Cell := fun _ _ => none

/-- Inner loop of `Matrix.upper` for a fixed row index `i`. -/
def upperInner (dims : List String) (i : Nat) (g : Nat → Nat → Option Cell) :
    Nat → Nat → Option Cell :=
  (List.range dims.length).foldl
    (fun g j =>
      if j > i then
        setCell g i j (.upperC (dims.getD j "") (dims.getD i "") true true)
      else g) g

/-- Embedding of `Matrix.upper`. -/
def upperPass (dims : List String) (g : Nat → Nat → Option Cell) :
    Nat → Nat → Option Cell :=
  (List.range dims.length).foldl (fun g i => upperInner dims i g) g

/-- Embedding of `Matrix.diag`. -/
def diagPass (dims : List String) (g : Nat → Nat → Option Cell) :
    Nat → Nat → Option Cell :=
  (List.range dims.length).foldl
    (fun g i =>
      setCell g i i (.diagC (dims.getD i "")
        (if i = dims.length - 1 then false else true)
        (if i = 0 then false else true))) g

/-- Inner loop of `Matrix.lower` for a fixed row index `i`. -/
def lowerInner (dims : List String) (i : Nat) (g : Nat → Nat → Option Cell) :
    Nat → Nat → Option Cell :=
  (List.range dims.length).foldl
    (fun g j =>
      if i > j then
        setCell g i j (.lowerC (dims.getD j "") (dims.getD i "")
          (if i = dims.length - 1 then false else true)
          (if j = 0 then false else true))
      else g) g

/-- Embedding of `Matrix.lower`. -/
def lowerPass (dims : List String) (g : Nat → Nat → Option Cell) :
    Nat → Nat → Option Cell :=
  (List.range dims.length).foldl (fun g i => lowerInner dims i g) g

/-- The grid `pairplot` assembles:
`Matrix(df).fields(*labels_dim).upper(..).diag(..).lower(..)`. -/
def pairGrid (dims : List String) : Nat → Nat → Option Cell :=
  lowerPass dims (diagPass dims (upperPass dims emptyGrid))

/-- Write-count instrumentation: one increment per assignment, with the
same loop structure as the three passes. -/
def bumpAt (c : Nat → Nat → Nat) (i j : Nat) : Nat → Nat → Nat :=
  updAt c i j (fun x => x + 1)

/-- Write counts of `Matrix.upper` (inner loop). -/
def upperInnerCnt (dims : List String) (i : Nat) (c : Nat → Nat → Nat) :
    Nat → Nat → Nat :=
  (List.range dims.length).foldl (fun c j => if j > i then bumpAt c i j else c) c

/-- Write counts of `Matrix.upper`. -/
def upperPassCnt (dims : List String) (c : Nat → Nat → Nat) : Nat → Nat → Nat :=
  (List.range dims.length).foldl (fun c i => upperInnerCnt dims i c) c

/-- Write counts of `Matrix.diag`. -/
def diagPassCnt (dims : List String) (c : Nat → Nat → Nat) : Nat → Nat → Nat :=
  (List.range dims.length).foldl (fun c i => bumpAt c i i) c

/-- Write counts of `Matrix.lower` (inner loop). -/
def lowerInnerCnt (dims : List String) (i : Nat) (c : Nat → Nat → Nat) :
    Nat → Nat → Nat :=
  (List.range dims.length).foldl (fun c j => if i > j then bumpAt c i j else c) c

/-- Write counts of `Matrix.lower`. -/
def lowerPassCnt (dims : List String) (c : Nat → Nat → Nat) : Nat → Nat → Nat :=
  (List.range dims.length).foldl (fun c i => lowerInnerCnt dims i c) c

/-- Total number of times each grid position is assigned during the
whole assembly. -/
def writeCount (dims : List String) : Nat → Nat → Nat :=
  lowerPassCnt dims (diagPassCnt dims (upperPassCnt dims (fun _ _ => 0)))

/-- Does a grid slot hold a diagonal histogram cell? -/
def isDiagCell : Option Cell → Bool
  | some (.diagC _ _ _) => true
  | _ => false

/-- Does a grid slot hold a lower-triangle scatter cell? -/
def isLowerCell : Option Cell → Bool
  | some (.lowerC _ _ _ _) => true
  | _ => false

/-- Does a grid slot hold an upper-triangle scatter cell? -/
def isUpperCell : Option Cell → Bool
  | some (.upperC _ _ _ _) => true
  | _ => false

end DenebMatrix

namespace DenebThemes

/-! ### Theme merging, from `themes.py` (`set_style`) and `mergedeep.merge`

`set_style` builds one nested fragment per option (empty when unset) and
computes `merge({}, border, font_family, size_label, size_title,
weight_label, weight_title, grid, height, width, extra)`.  `mergedeep`'s
default REPLACE strategy iterates the source's keys in order: when a key
maps to mappings on both sides the values are merged recursively,
otherwise the source value replaces the destination value; a fresh key
is appended (Python dicts preserve insertion order and update existing
keys in place).  Dicts are modelled as association lists in insertion
order; `wfJ`/`wfEntries` states the Python-dict invariant that keys are
unique at every level.
-/
/-- Atomic style value: string, integer, or boolean option. -/
inductive Atom where
  | str (s : String)
  | int (n : Int)
  | bool (b : Bool)
deriving DecidableEq

/-- A style fragment: an atomic leaf value or a nested dict, modelled as
an association list in insertion order. -/
inductive JVal where
  | leaf (a : Atom)
  | obj (entries : List (String × JVal))

/-- First-match association-list lookup (Python dict indexing). -/
def lookupJ : List (String × JVal) → String → Option JVal
  | [], _ => none
  | (k2, v) :: t, k => if k2 = k then some v else lookupJ t k

mutual

/-- `mergedeep` REPLACE-strategy merge of two style values: two dicts
merge key-wise, anything else is replaced by the second value. -/
def combine : JVal → JVal → JVal
  | .obj d, .obj s => .obj (mergeEntries d s)
  | _, w => w
termination_by _a b => (sizeOf b, 0, 0)

/-- The `for key in src` loop of `mergedeep._deepmerge`, updating the
destination entries with each source entry in order. -/
def mergeEntries (d : List (String × JVal)) : List (String × JVal) → List (String × JVal)
  | [] => d
  | (k, w) :: rest => mergeEntries (insertCombine d k w) rest
termination_by l => (sizeOf l, 2, 0)

/-- One key update `dst[key] = ...`: recursive merge when the key maps
to dicts on both sides, replacement otherwise; a fresh key is appended
at the end (Python dict insertion order). -/
def insertCombine : List (String × JVal) → String → JVal → List (String × JVal)
  | [], k, w => [(k, w)]
  | (k2, v) :: t, k, w =>
    if k2 = k then (k2, combine v w) :: t else (k2, v) :: insertCombine t k w
termination_by d _k w => (sizeOf w, 1, sizeOf d)

end

mutual

/-- No collision outside interior dict nodes: both values are dicts and
every shared key again satisfies `noCollide`.  This is the \"leaf keys
do not collide\" condition: no path shared by both fragments ends at a
leaf (or at a leaf-versus-dict mismatch) on either side. -/
def noCollide : JVal → JVal → Bool
  | .obj d, .obj s => noCollideEntries d s
  | _, _ => false
termination_by _a b => (sizeOf b, 1)

/-- Key-wise collision check of `noCollide` over the source entries. -/
def noCollideEntries (d : List (String × JVal)) : List (String × JVal) → Bool
  | [] => true
  | (k, w) :: rest =>
    (match lookupJ d k with
     | none => true
     | some v => noCollide v w) && noCollideEntries d rest
termination_by l => (sizeOf l, 2)

end

mutual

/-- Python-dict invariant: keys are unique at every level. -/
def wfJ : JVal → Bool
  | .leaf _ => true
  | .obj es => wfEntries es
termination_by v => (sizeOf v, 1)

/-- Entry-list part of `wfJ`. -/
def wfEntries : List (String × JVal) → Bool
  | [] => true
  | (k, v) :: t => t.all (fun p => !(p.1 == k)) && wfJ v && wfEntries t
termination_by l => (sizeOf l, 2)

end

/-- The leaf value reached by following a key path into a fragment. -/
def leafAt : JVal → List String → Option Atom
  | .leaf a, [] => some a
  | .obj _, [] => none
  | .leaf _, _ :: _ => none
  | .obj es, k :: p =>
    match lookupJ es k with
    | none => none
    | some v => leafAt v p

/-- Fragment built by `themes._custom_font_family`. -/
def customFontFamily : Option String → JVal
  | none => .obj []
  | some f => .obj [("config", .obj [
      ("title", .obj [("font", .leaf (.str f))]),
      ("axis", .obj [("labelFont", .leaf (.str f)), ("titleFont", .leaf (.str f))]),
      ("header", .obj [("labelFont", .leaf (.str f)), ("titleFont", .leaf (.str f))]),
      ("legend", .obj [("labelFont", .leaf (.str f)), ("titleFont", .leaf (.str f))])])]

/-- Fragment built by `themes._custom_font_size_title`. -/
def customFontSizeTitle : Option Int → JVal
  | none => .obj []
  | some n => .obj [("config", .obj [
      ("title", .obj [("fontSize", .leaf (.int n))]),
      ("axis", .obj [("titleFontSize", .leaf (.int n))]),
      ("header", .obj [("titleFontSize", .leaf (.int n))]),
      ("legend", .obj [("titleFontSize", .leaf (.int n))])])]

/-- Fragment built by `themes._custom_font_size_label`. -/
def customFontSizeLabel : Option Int → JVal
  | none => .obj []
  | some n => .obj [("config", .obj [
      ("axis", .obj [("labelFontSize", .leaf (.int n))]),
      ("header", .obj [("labelFontSize", .leaf (.int n))]),
      ("legend", .obj [("labelFontSize", .leaf (.int n))])])]

/-- Fragment built by `themes._custom_font_weight_title`. -/
def customFontWeightTitle : Option String → JVal
  | none => .obj []
  | some f => .obj [("config", .obj [
      ("axis", .obj [("titleFontWeight", .leaf (.str f))]),
      ("header", .obj [("titleFontWeight", .leaf (.str f))]),
      ("legend", .obj [("titleFontWeight", .leaf (.str f))])])]

/-- Fragment built by `themes._custom_font_weight_label`. -/
def customFontWeightLabel : Option String → JVal
  | none => .obj []
  | some f => .obj [("config", .obj [
      ("axis", .obj [("labelFontWeight", .leaf (.str f))]),
      ("header", .obj [("labelFontWeight", .leaf (.str f))]),
      ("legend", .obj [("labelFontWeight", .leaf (.str f))])])]

/-- The fragments `set_style` merges, in the order of its `merge` call:
border, font family, label size, title size, label weight, title
weight, grid, height, width, and last the `extra` fragment.  The size
and weight arguments resolve as in the source
(`font_size if font_size_label is None else font_size_label`, etc.). -/
def setStyleFragments (border : Bool) (font_family : Option String)
    (font_size font_size_label font_size_title : Option Int)
    (font_weight font_weight_label font_weight_title : Option String)
    (grid : Bool) (height width : Int) (extra : JVal) : List JVal :=
  [if border then .obj []
   else .obj [("config", .obj [("view", .obj [("strokeWidth", .leaf (.int 0))])])],
   customFontFamily font_family,
   customFontSizeLabel (match font_size_label with | none => font_size | some x => some x),
   customFontSizeTitle (match font_size_title with | none => font_size | some x => some x),
   customFontWeightLabel (match font_weight_label with | none => font_weight | some x => some x),
   customFontWeightTitle (match font_weight_title with | none => font_weight | some x => some x),
   .obj [("config", .obj [("axis", .obj [("grid", .leaf (.bool grid))])])],
   .obj [("config", .obj [("view", .obj [
     ("continuousHeight", .leaf (.int height)), ("discreteHeight", .leaf (.int height))])])],
   .obj [("config", .obj [("view", .obj [
     ("continuousWidth", .leaf (.int width)), ("discreteWidth", .leaf (.int width))])])],
   extra]

/-- The theme dict `set_style` registers and enables: the left-to-right
deep merge of all fragments into an initially empty dict. -/
def setStyleTheme (border : Bool) (font_family : Option String)
    (font_size font_size_label font_size_title : Option Int)
    (font_weight font_weight_label font_weight_title : Option String)
    (grid : Bool) (height width : Int) (extra : JVal) : JVal :=
  (setStyleFragments border font_family font_size font_size_label font_size_title
    font_weight font_weight_label font_weight_title grid height width
    extra).foldl combine (.obj [])

end DenebThemes

namespace DenebUtils

lemma hexCharVal_hexDigitChar {d : Nat} (hd : d < 16) :
    hexCharVal (hexDigitChar d) = some d := by
  interval_cases d <;> decide

lemma hexDigitChar_ne_hash {d : Nat} (hd : d < 16) : hexDigitChar d ≠ '#' := by
  interval_cases d <;> decide

lemma format02x_eq {n : Nat} (hn : n < 256) :
    format02x n = [hexDigitChar (n / 16), hexDigitChar (n % 16)] := by
  unfold format02x
  by_cases h16 : n < 16
  · rw [toHexAux]
    simp only [h16, dite_true]
    have : n / 16 = 0 := Nat.div_eq_of_lt h16
    simp [this, hexDigitChar]
  · rw [toHexAux]
    simp only [h16, dite_false]
    rw [toHexAux]
    have hdiv : n / 16 < 16 := by omega
    simp only [hdiv, dite_true]
    have : n / 16 % 16 = n / 16 := Nat.mod_eq_of_lt hdiv
    simp [this]

/-- Claim C5: for every byte triple `(r, g, b)` with each component in
`0..255`, applying `rgb2hex` and then `hex2rgb` returns exactly `(r, g, b)`. -/
theorem rgb2hex_hex2rgb_roundtrip (r g b : Nat)
    (hr : r < 256) (hg : g < 256) (hb : b < 256) :
    hex2rgb (rgb2hex r g b) = some (r, g, b) := by
  have hr16 : r / 16 < 16 := by omega
  have hg16 : g / 16 < 16 := by omega
  have hb16 : b / 16 < 16 := by omega
  have hrm : r % 16 < 16 := Nat.mod_lt _ (by omega)
  have hgm : g % 16 < 16 := Nat.mod_lt _ (by omega)
  have hbm : b % 16 < 16 := Nat.mod_lt _ (by omega)
  unfold hex2rgb rgb2hex
  rw [format02x_eq hr, format02x_eq hg, format02x_eq hb]
  simp only [String.data]
  rw [List.dropWhile_cons, if_pos (by decide)]
  simp only [List.cons_append, List.nil_append]
  rw [List.dropWhile_cons,
    if_neg (by simpa using hexDigitChar_ne_hash hr16)]
  simp only [List.drop, List.take, List.cons_append, List.nil_append]
  rw [parseHex, parseHex, parseHex]
  simp only [List.foldl, Option.bind, Option.map,
    hexCharVal_hexDigitChar hr16, hexCharVal_hexDigitChar hg16,
    hexCharVal_hexDigitChar hb16, hexCharVal_hexDigitChar hrm,
    hexCharVal_hexDigitChar hgm, hexCharVal_hexDigitChar hbm]
  have er : 16 * (16 * 0 + r / 16) + r % 16 = r := by omega
  have eg : 16 * (16 * 0 + g / 16) + g % 16 = g := by omega
  have eb : 16 * (16 * 0 + b / 16) + b % 16 = b := by omega
  rw [er, eg, eb]

/-- Witness for C5 at the byte triple `(30, 144, 255)`. -/
theorem rgb2hex_hex2rgb_roundtrip_witness :
    hex2rgb (rgb2hex 30 144 255) = some (30, 144, 255) :=
  rgb2hex_hex2rgb_roundtrip 30 144 255 (by decide) (by decide) (by decide)

/-- Claim C9: `latex2unicode` raises a generic \"not implemented\" failure
on any input that is neither a string nor a list; a string yields one
converted string; a list of strings yields the list of converted strings. -/
theorem latex2unicode_spec (convert : String → String) :
    latex2unicode convert .other = .error "NotImplementedError" ∧
    (∀ s, latex2unicode convert (.str s) = .ok (.str (convert s))) ∧
    (∀ ls, latex2unicode convert (.lst ls) = .ok (.lst (ls.map convert))) :=
  ⟨rfl, fun _ => rfl, fun _ => rfl⟩

/-- Witness for C9: the generic failure branch at the identity converter. -/
theorem latex2unicode_spec_witness :
    latex2unicode id .other = .error "NotImplementedError" :=
  (latex2unicode_spec id).1

/-- Claim C6: converting a numeric array of shape `(S, D)` with `D`
dimension labels via `np2df` and recovering the numeric block by
grouping on the sample-identifier field and dropping that column yields
the original `S × D` block, with row and column order preserved. -/
theorem np2df_roundtrip (D : Nat) (rows : List (List ℚ)) (labels : List String)
    (hlab : labels.length = D) (_hw : ∀ r ∈ rows, r.length = D) :
    np2df [⟨D, rows⟩] "samples" none (some labels) none
        = .ok ⟨labels, "samples", rows.map (fun r => (r, "sample 1"))⟩ ∧
    groupBlock ⟨labels, "samples", rows.map (fun r => (r, "sample 1"))⟩ "sample 1"
        = rows := by
  constructor
  · unfold np2df
    simp only
    rw [if_pos (by simp)]
    rw [if_pos (by simp)]
    rw [if_pos (by simpa using hlab)]
    have hs : "sample " ++ toString (0 + 1) = "sample 1" := rfl
    simp [List.range_succ, hs]
  · unfold groupBlock
    have hall : ∀ a ∈ rows.map (fun r => (r, "sample 1")),
        (fun rw2 => decide (rw2.2 = "sample 1")) a = true := by
      intro a ha
      rcases List.mem_map.mp ha with ⟨r, _, rfl⟩
      simp
    rw [List.filter_eq_self.mpr hall, List.map_map]
    have hcomp : ((fun rw2 : List ℚ × String => rw2.1) ∘ fun r => (r, "sample 1")) = id := rfl
    rw [hcomp, List.map_id]

/-- Witness for C6 at the concrete 2×2 array `[[1, 2], [3, 4]]` with
labels `["x", "y"]`. -/
theorem np2df_roundtrip_witness :
    np2df [⟨2, [[1, 2], [3, 4]]⟩] "samples" none (some ["x", "y"]) none
        = .ok ⟨["x", "y"], "samples", [[1, 2], [3, 4]].map (fun r => (r, "sample 1"))⟩ ∧
    groupBlock ⟨["x", "y"], "samples", [[1, 2], [3, 4]].map (fun r => (r, "sample 1"))⟩
        "sample 1" = [[1, 2], [3, 4]] :=
  np2df_roundtrip 2 [[1, 2], [3, 4]] ["x", "y"] rfl
    (by
      intro r hr
      rcases List.mem_cons.mp hr with h | h
      · subst h; rfl
      · rcases List.mem_cons.mp h with h2 | h2
        · subst h2; rfl
        · simp at h2)

end DenebUtils

namespace DenebPairplot

lemma length_filter_ne_add_count (cols : List String) (field : String) :
    (cols.filter (fun c => c ≠ field)).length + cols.count field = cols.length := by
  induction cols with
  | nil => simp
  | cons c t ih =>
    by_cases h : c = field
    · subst h
      simp only [List.filter_cons, List.count_cons, List.length_cons]
      rw [if_neg (by simp), if_pos (by simp)]
      omega
    · simp only [List.filter_cons, List.count_cons, List.length_cons]
      rw [if_pos (by simp [h]), if_neg (by simp [h])]
      simp only [List.length_cons]
      omega

lemma pairplotGuard_iff_count (cols : List String) (field : String) :
    pairplotGuard cols field = true ↔ cols.count field = 1 := by
  unfold pairplotGuard
  have h := length_filter_ne_add_count cols field
  simp only [decide_eq_true_eq]
  omega

/-- Counterexample to claim C10 as stated: for the dataframe columns
`["samples", "samples"]` the grouping field `"samples"` *is* one of the
columns, yet the guard fails (the assertion compares `2` with `0 + 1`),
so \"proceeds past this guard exactly when the grouping field is one of
the dataframe's columns\" is false for dataframes with duplicated
column labels. -/
theorem pairplotGuard_member_not_sufficient :
    "samples" ∈ ["samples", "samples"] ∧
    pairplotGuard ["samples", "samples"] "samples" = false := by
  constructor
  · decide
  · rfl

/-- Claim C10, amended: the guard passes exactly when the grouping field
occurs exactly once among the columns.  Consequently a dataframe whose
columns do not include the field fails the assertion, and for dataframes
with pairwise-distinct column names the guard passes exactly when the
field is one of the columns. -/
theorem pairplotGuard_characterization (cols : List String) (field : String) :
    (pairplotGuard cols field = true ↔ cols.count field = 1) ∧
    (field ∉ cols → pairplotGuard cols field = false) ∧
    (cols.Nodup → (pairplotGuard cols field = true ↔ field ∈ cols)) := by
  refine ⟨pairplotGuard_iff_count cols field, ?_, ?_⟩
  · intro hnm
    have h0 : cols.count field = 0 := List.count_eq_zero.mpr hnm
    rcases h : pairplotGuard cols field with _ | _
    · rfl
    · exact absurd ((pairplotGuard_iff_count cols field).mp h) (by omega)
  · intro hnd
    rw [pairplotGuard_iff_count cols field]
    constructor
    · intro h1
      exact List.count_pos_iff.mp (by omega)
    · intro hm
      exact List.count_eq_one_of_mem hnd hm

/-- Witness for the amended C10: with distinct columns
`["samples", "a", "b"]`, the guard passes for field `"samples"`
(which occurs exactly once) and its count is one. -/
theorem pairplotGuard_characterization_witness :
    pairplotGuard ["samples", "a", "b"] "samples" = true ∧
    List.count "samples" ["samples", "a", "b"] = 1 := by
  have h := (pairplotGuard_characterization ["samples", "a", "b"] "samples").1
  refine ⟨?_, by decide⟩
  rw [h]
  decide

/-- Counterexample to claim C4 as stated: for the two dimensions
`["a", "b"]`, a per-dimension list of *three* ranges is accepted without
any failure (the third range is silently ignored), so a per-dimension
list is not \"accepted only when supplied one-to-one with the N
dimensions\". -/
theorem checkLimits_extra_entry_accepted :
    checkLimits ["a", "b"]
        (some (.lst [.lst [.num 0, .num 1], .lst [.num 0, .num 1], .lst [.num 2, .num 3]]))
      = .ok (some [("a", .lst [.num 0, .num 1]), ("b", .lst [.num 0, .num 1])]) := rfl

/-- Claim C4, amended: a single two-element float range is broadcast to
all `N` dimensions, and a single-range list of the wrong length aborts
with an assertion failure; a per-dimension list is accepted whenever it
supplies at least `N` ranges, pairing dimension `i` with entry `i` and
silently ignoring extra entries, while a list with fewer than `N`
entries aborts with an index error (not an assertion failure). -/
theorem checkLimits_characterization :
    (∀ (dims : List String) (a b : ℚ),
        checkLimits dims (some (.lst [.num a, .num b]))
          = .ok (some (dims.map (fun d => (d, PyVal.lst [.num a, .num b]))))) ∧
    (∀ (dims : List String) (q : ℚ) (rest : List PyVal), rest.length ≠ 1 →
        checkLimits dims (some (.lst (.num q :: rest))) = .error .assertFail) ∧
    (∀ (dims : List String) (l0 : List PyVal) (rest : List PyVal),
        dims.length ≤ rest.length + 1 →
        checkLimits dims (some (.lst (.lst l0 :: rest)))
          = .ok (some (dims.zip ((PyVal.lst l0 :: rest).take dims.length)))) ∧
    (∀ (dims : List String) (l0 : List PyVal) (rest : List PyVal),
        rest.length + 1 < dims.length →
        checkLimits dims (some (.lst (.lst l0 :: rest))) = .error .indexErr) := by
  refine ⟨?_, ?_, ?_, ?_⟩
  · intro dims a b
    rfl
  · intro dims q rest h
    simp only [checkLimits]
    rw [if_neg (by omega)]
  · intro dims l0 rest h
    simp only [checkLimits]
    rw [if_pos (by omega)]
  · intro dims l0 rest h
    simp only [checkLimits]
    rw [if_neg (by omega)]

/-- Witness for the amended C4: broadcast of a two-element range over
two dimensions, and assertion failure for a one-element range. -/
theorem checkLimits_characterization_witness :
    checkLimits ["a", "b"] (some (.lst [.num 0, .num 1]))
      = .ok (some (["a", "b"].map (fun d => (d, PyVal.lst [.num 0, .num 1])))) ∧
    checkLimits ["a"] (some (.lst [.num 0])) = .error .assertFail :=
  ⟨checkLimits_characterization.1 ["a", "b"] 0 1,
   checkLimits_characterization.2.1 ["a"] 0 [] (by decide)⟩

end DenebPairplot

namespace DenebCorr

/-- Claim C8: the metrics are filtered to actual column names (the rest
silently dropped, order preserved), so the subsequent column selection
cannot fail on account of nonexistent requested names. -/
theorem validMetrics_select_safe (df : DataFrame) (metrics : List String) :
    (selectColumns df (validMetrics df.cols metrics)).isSome = true ∧
    (∀ m ∈ validMetrics df.cols metrics, m ∈ df.cols ∧ m ∈ metrics) ∧
    (∀ m ∈ metrics, m ∈ df.cols → m ∈ validMetrics df.cols metrics) := by
  refine ⟨?_, ?_, ?_⟩
  · unfold selectColumns
    rw [if_pos]
    · rfl
    · rw [List.all_eq_true]
      intro m hm
      unfold validMetrics at hm
      rw [List.mem_filter] at hm
      exact hm.2
  · intro m hm
    unfold validMetrics at hm
    rw [List.mem_filter] at hm
    refine ⟨?_, hm.1⟩
    have := hm.2
    simpa using this
  · intro m hm hcol
    unfold validMetrics
    rw [List.mem_filter]
    exact ⟨hm, by simpa using hcol⟩

/-- Witness for C8: with columns `["a"]` and the request `["a", "b"]`
(containing the nonexistent column `"b"`), the selection succeeds. -/
theorem validMetrics_select_safe_witness :
    (selectColumns ⟨["a"], fun _ => []⟩ (validMetrics ["a"] ["a", "b"])).isSome = true :=
  (validMetrics_select_safe ⟨["a"], fun _ => []⟩ ["a", "b"]).1

/-- Counterexample to claim C3 as stated: at threshold `1/2` a strongly
negative correlation `-9/10` gets a black label from the code (signed
comparison), while the claimed magnitude rule would give white. -/
theorem labelColor_not_magnitude :
    labelColor (1/2) (-9/10) = "black" ∧
    labelColorMagnitude (1/2) (-9/10) = "white" ∧
    ("black" : String) ≠ "white" := by
  refine ⟨?_, ?_, by decide⟩
  · unfold labelColor
    rw [if_neg]
    norm_num
  · unfold labelColorMagnitude
    rw [if_pos]
    rw [abs_of_neg (by norm_num : (-9/10 : ℚ) < 0)]
    norm_num

/-- Claim C3, amended: the label is white exactly when the *signed*
correlation value exceeds the threshold (black otherwise); this agrees
with the claimed magnitude rule precisely on nonnegative correlations. -/
theorem labelColor_signed_characterization (t c : ℚ) :
    (labelColor t c = "white" ↔ t < c) ∧
    (0 ≤ c → labelColor t c = labelColorMagnitude t c) := by
  constructor
  · unfold labelColor
    by_cases h : t < c
    · rw [if_pos h]
      simp [h]
    · rw [if_neg h]
      simp [h]
  · intro hc
    unfold labelColor labelColorMagnitude
    rw [abs_of_nonneg hc]

/-- Witness for the amended C3 at threshold `1/2`, correlation `1`. -/
theorem labelColor_signed_characterization_witness :
    (labelColor (1/2) 1 = "white" ↔ (1/2 : ℚ) < 1) ∧
    labelColor (1/2) 1 = labelColorMagnitude (1/2) 1 :=
  ⟨(labelColor_signed_characterization (1/2) 1).1,
   (labelColor_signed_characterization (1/2) 1).2 (by norm_num)⟩

lemma charsLtB_irrefl (l : List Char) : charsLtB l l = false := by
  induction l with
  | nil => rfl
  | cons a t ih => simp [charsLtB, ih]

lemma charsLtB_asymm : ∀ {l₁ l₂ : List Char},
    charsLtB l₁ l₂ = true → charsLtB l₂ l₁ = false := by
  intro l₁
  induction l₁ with
  | nil =>
    intro l₂ h
    cases l₂ with
    | nil => simp [charsLtB]
    | cons b bs => simp [charsLtB]
  | cons a as ih =>
    intro l₂ h
    cases l₂ with
    | nil => simp [charsLtB] at h
    | cons b bs =>
      simp only [charsLtB] at h ⊢
      rcases Nat.lt_trichotomy a.toNat b.toNat with hab | hab | hab
      · simp [hab, Nat.lt_asymm hab]
      · simp only [hab, lt_irrefl, if_false, if_neg (lt_irrefl _)] at h ⊢
        exact ih h
      · simp [hab, Nat.lt_asymm hab] at h

/-- Counterexample to claim C2 as stated: with columns `["a", "b"]` and
requested metrics `["b", "a"]`, the valid metrics are `["b", "a"]`, so
the cell `("b", "a")` sits at row index `0` and column index `1` of the
correlation table.  Its row index is *less* than its column index, so
the claim says it is kept, but the filter compares the names and removes
it (`"b" < "a"` is false). -/
theorem sparseFilter_not_index_based :
    validMetrics ["a", "b"] ["b", "a"] = ["b", "a"] ∧
    ("b", "a") ∈ meltCells ["b", "a"] ∧
    sparseKeep ("b", "a") = false ∧
    ("b", "a") ∉ sparseFilter (meltCells ["b", "a"]) := by
  refine ⟨rfl, by decide, by decide, ?_⟩
  intro hmem
  unfold sparseFilter at hmem
  rw [List.mem_filter] at hmem
  exact absurd hmem.2 (by decide)

/-- Claim C2, amended: the sparse filter keeps exactly the cells whose
row metric name is lexicographically smaller than their column metric
name; when the valid metrics are listed in strictly increasing
lexicographic order this coincides with row index < column index, i.e.
exactly the lower triangle including the diagonal (row index ≥ column
index) is removed. -/
theorem sparseFilter_characterization (cols ms : List String)
    (hsorted : (validMetrics cols ms).Pairwise (fun a b => strLtB a b = true)) :
    (∀ i j : Fin (validMetrics cols ms).length,
        sparseKeep ((validMetrics cols ms).get i, (validMetrics cols ms).get j) = true
          ↔ (i : ℕ) < (j : ℕ)) ∧
    (∀ cell, cell ∈ sparseFilter (meltCells (validMetrics cols ms)) ↔
        (cell ∈ meltCells (validMetrics cols ms) ∧ sparseKeep cell = true)) := by
  constructor
  · intro i j
    have hget := List.pairwise_iff_get.mp hsorted
    unfold sparseKeep
    constructor
    · intro hlt
      rcases Nat.lt_trichotomy (i : ℕ) (j : ℕ) with h | h | h
      · exact h
      · exfalso
        have : i = j := Fin.ext h
        subst this
        simp only [strLtB] at hlt
        rw [charsLtB_irrefl] at hlt
        exact Bool.false_ne_true hlt
      · exfalso
        have hji := hget j i h
        simp only [strLtB] at hlt hji
        rw [charsLtB_asymm hji] at hlt
        exact Bool.false_ne_true hlt
    · intro hij
      exact hget i j hij
  · intro cell
    unfold sparseFilter
    rw [List.mem_filter]

/-- Witness for the amended C2: columns `["a", "b"]`, metrics
`["a", "b"]` (strictly increasing), cell at row index 0, column index 1. -/
theorem sparseFilter_characterization_witness :
    sparseKeep ((validMetrics ["a", "b"] ["a", "b"]).get ⟨0, by decide⟩,
      (validMetrics ["a", "b"] ["a", "b"]).get ⟨1, by decide⟩) = true ↔ (0 : ℕ) < 1 :=
  (sparseFilter_characterization ["a", "b"] ["a", "b"]
    (by decide)).1 ⟨0, by decide⟩ ⟨1, by decide⟩

end DenebCorr

namespace DenebMatrix

lemma updAt_apply {β : Type} (g : Nat → Nat → β) (i j : Nat) (f : β → β)
    (i2 j2 : Nat) :
    updAt g i j f i2 j2 = if i2 = i ∧ j2 = j then f (g i2 j2) else g i2 j2 := rfl

lemma innerFold_apply {β : Type} (m i : Nat) (Q : Nat → Prop) [DecidablePred Q]
    (f : Nat → β → β) (g : Nat → Nat → β) (i2 j2 : Nat) :
    ((List.range m).foldl (fun g j => if Q j then updAt g i j (f j) else g) g) i2 j2
      = if i2 = i ∧ Q j2 ∧ j2 < m then f j2 (g i2 j2) else g i2 j2 := by
  induction m with
  | zero => simp
  | succ m ih =>
    rw [List.range_succ, List.foldl_append, List.foldl_cons, List.foldl_nil]
    by_cases hQ : Q m
    · rw [if_pos hQ, updAt_apply, ih]
      by_cases h1 : i2 = i ∧ j2 = m
      · obtain ⟨h1a, h1b⟩ := h1
        rw [if_pos ⟨h1a, h1b⟩]
        rw [if_neg (by rintro ⟨-, -, hc⟩; omega)]
        rw [if_pos ⟨h1a, h1b ▸ hQ, by omega⟩, h1b]
      · rw [if_neg h1]
        by_cases h2 : i2 = i ∧ Q j2 ∧ j2 < m
        · rw [if_pos h2, if_pos ⟨h2.1, h2.2.1, by omega⟩]
        · rw [if_neg h2, if_neg (by
            rintro ⟨ha, hb, hc⟩
            by_cases hj : j2 < m
            · exact h2 ⟨ha, hb, hj⟩
            · exact h1 ⟨ha, by omega⟩)]
    · rw [if_neg hQ, ih]
      by_cases h2 : i2 = i ∧ Q j2 ∧ j2 < m
      · rw [if_pos h2, if_pos ⟨h2.1, h2.2.1, by omega⟩]
      · rw [if_neg h2, if_neg (by
          rintro ⟨ha, hb, hc⟩
          by_cases hj : j2 < m
          · exact h2 ⟨ha, hb, hj⟩
          · have hjm : j2 = m := by omega
            rw [hjm] at hb
            exact hQ hb)]

lemma rowFold_apply {β : Type} (n : Nat) (R : Nat → Nat → Prop)
    [∀ i j, Decidable (R i j)] (f : Nat → Nat → β → β)
    (step : Nat → (Nat → Nat → β) → (Nat → Nat → β))
    (hstep : ∀ i, i < n → ∀ (g : Nat → Nat → β) (i3 j3 : Nat),
      step i g i3 j3 = if i3 = i ∧ R i j3 ∧ j3 < n then f i j3 (g i3 j3) else g i3 j3)
    (m : Nat) (hm : m ≤ n) (g : Nat → Nat → β) (i2 j2 : Nat) :
    ((List.range m).foldl (fun acc i => step i acc) g) i2 j2
      = if i2 < m ∧ R i2 j2 ∧ j2 < n then f i2 j2 (g i2 j2) else g i2 j2 := by
  induction m with
  | zero => simp
  | succ m ih =>
    have hm2 : m ≤ n := by omega
    rw [List.range_succ, List.foldl_append, List.foldl_cons, List.foldl_nil]
    rw [hstep m (by omega), ih hm2]
    by_cases h1 : i2 = m
    · subst h1
      rw [show (if i2 < i2 ∧ R i2 j2 ∧ j2 < n then f i2 j2 (g i2 j2) else g i2 j2)
            = g i2 j2 from if_neg (by rintro ⟨hc, -, -⟩; omega)]
      by_cases h2 : R i2 j2 ∧ j2 < n
      · rw [if_pos ⟨rfl, h2.1, h2.2⟩, if_pos ⟨by omega, h2.1, h2.2⟩]
      · rw [if_neg (by rintro ⟨-, hb, hc⟩; exact h2 ⟨hb, hc⟩),
          if_neg (by rintro ⟨-, hb, hc⟩; exact h2 ⟨hb, hc⟩)]
    · rw [if_neg (by rintro ⟨ha, -, -⟩; exact h1 ha)]
      by_cases h2 : i2 < m ∧ R i2 j2 ∧ j2 < n
      · rw [if_pos h2, if_pos ⟨by omega, h2.2.1, h2.2.2⟩]
      · rw [if_neg h2, if_neg (by
          rintro ⟨ha, hb, hc⟩
          exact h2 ⟨by omega, hb, hc⟩)]

lemma upperInner_apply (dims : List String) (i : Nat) (g : Nat → Nat → Option Cell)
    (i3 j3 : Nat) :
    upperInner dims i g i3 j3
      = if i3 = i ∧ j3 > i ∧ j3 < dims.length then
          some (.upperC (dims.getD j3 "") (dims.getD i "") true true)
        else g i3 j3 := by
  simp only [upperInner, setCell]
  exact innerFold_apply dims.length i (fun j => j > i)
    (fun j _ => some (.upperC (dims.getD j "") (dims.getD i "") true true)) g i3 j3

lemma upperPass_apply (dims : List String) (g : Nat → Nat → Option Cell)
    (i2 j2 : Nat) :
    upperPass dims g i2 j2
      = if i2 < dims.length ∧ j2 > i2 ∧ j2 < dims.length then
          some (.upperC (dims.getD j2 "") (dims.getD i2 "") true true)
        else g i2 j2 := by
  unfold upperPass
  exact rowFold_apply dims.length (fun i j => j > i)
    (fun i j _ => some (.upperC (dims.getD j "") (dims.getD i "") true true))
    (fun i g => upperInner dims i g)
    (fun i _ g i3 j3 => upperInner_apply dims i g i3 j3)
    dims.length le_rfl g i2 j2

lemma diag_step_apply (dims : List String) (i : Nat) (hi : i < dims.length)
    (g : Nat → Nat → Option Cell) (i3 j3 : Nat) :
    setCell g i i (.diagC (dims.getD i "")
        (if i = dims.length - 1 then false else true)
        (if i = 0 then false else true)) i3 j3
      = if i3 = i ∧ j3 = i ∧ j3 < dims.length then
          some (.diagC (dims.getD i "")
            (if i = dims.length - 1 then false else true)
            (if i = 0 then false else true))
        else g i3 j3 := by
  simp only [setCell]
  rw [updAt_apply]
  by_cases h : i3 = i ∧ j3 = i
  · rw [if_pos h,
      if_pos (show i3 = i ∧ j3 = i ∧ j3 < dims.length from ⟨h.1, h.2, by omega⟩)]
  · rw [if_neg h, if_neg (by rintro ⟨ha, hb, -⟩; exact h ⟨ha, hb⟩)]

lemma diagPass_apply (dims : List String) (g : Nat → Nat → Option Cell)
    (i2 j2 : Nat) :
    diagPass dims g i2 j2
      = if i2 < dims.length ∧ j2 = i2 ∧ j2 < dims.length then
          some (.diagC (dims.getD i2 "")
            (if i2 = dims.length - 1 then false else true)
            (if i2 = 0 then false else true))
        else g i2 j2 := by
  unfold diagPass
  exact rowFold_apply dims.length (fun i j => j = i)
    (fun i j _ => some (.diagC (dims.getD i "")
      (if i = dims.length - 1 then false else true)
      (if i = 0 then false else true)))
    (fun i g => setCell g i i (.diagC (dims.getD i "")
      (if i = dims.length - 1 then false else true)
      (if i = 0 then false else true)))
    (fun i hi g i3 j3 => diag_step_apply dims i hi g i3 j3)
    dims.length le_rfl g i2 j2

lemma lowerInner_apply (dims : List String) (i : Nat) (g : Nat → Nat → Option Cell)
    (i3 j3 : Nat) :
    lowerInner dims i g i3 j3
      = if i3 = i ∧ i > j3 ∧ j3 < dims.length then
          some (.lowerC (dims.getD j3 "") (dims.getD i "")
            (if i = dims.length - 1 then false else true)
            (if j3 = 0 then false else true))
        else g i3 j3 := by
  simp only [lowerInner, setCell]
  exact innerFold_apply dims.length i (fun j => i > j)
    (fun j _ => some (.lowerC (dims.getD j "") (dims.getD i "")
      (if i = dims.length - 1 then false else true)
      (if j = 0 then false else true))) g i3 j3

lemma lowerPass_apply (dims : List String) (g : Nat → Nat → Option Cell)
    (i2 j2 : Nat) :
    lowerPass dims g i2 j2
      = if i2 < dims.length ∧ i2 > j2 ∧ j2 < dims.length then
          some (.lowerC (dims.getD j2 "") (dims.getD i2 "")
            (if i2 = dims.length - 1 then false else true)
            (if j2 = 0 then false else true))
        else g i2 j2 := by
  unfold lowerPass
  exact rowFold_apply dims.length (fun i j => i > j)
    (fun i j _ => some (.lowerC (dims.getD j "") (dims.getD i "")
      (if i = dims.length - 1 then false else true)
      (if j = 0 then false else true)))
    (fun i g => lowerInner dims i g)
    (fun i _ g i3 j3 => lowerInner_apply dims i g i3 j3)
    dims.length le_rfl g i2 j2

lemma upperInnerCnt_apply (dims : List String) (i : Nat) (c : Nat → Nat → Nat)
    (i3 j3 : Nat) :
    upperInnerCnt dims i c i3 j3
      = if i3 = i ∧ j3 > i ∧ j3 < dims.length then c i3 j3 + 1 else c i3 j3 := by
  simp only [upperInnerCnt, bumpAt]
  exact innerFold_apply dims.length i (fun j => j > i) (fun _ x => x + 1) c i3 j3

lemma upperPassCnt_apply (dims : List String) (c : Nat → Nat → Nat) (i2 j2 : Nat) :
    upperPassCnt dims c i2 j2
      = if i2 < dims.length ∧ j2 > i2 ∧ j2 < dims.length then c i2 j2 + 1 else c i2 j2 := by
  unfold upperPassCnt
  exact rowFold_apply dims.length (fun i j => j > i) (fun _ _ x => x + 1)
    (fun i c => upperInnerCnt dims i c)
    (fun i _ c i3 j3 => upperInnerCnt_apply dims i c i3 j3)
    dims.length le_rfl c i2 j2

lemma diagCnt_step_apply (dims : List String) (i : Nat) (hi : i < dims.length)
    (c : Nat → Nat → Nat) (i3 j3 : Nat) :
    bumpAt c i i i3 j3
      = if i3 = i ∧ j3 = i ∧ j3 < dims.length then c i3 j3 + 1 else c i3 j3 := by
  simp only [bumpAt]
  rw [updAt_apply]
  by_cases h : i3 = i ∧ j3 = i
  · rw [if_pos h,
      if_pos (show i3 = i ∧ j3 = i ∧ j3 < dims.length from ⟨h.1, h.2, by omega⟩)]
  · rw [if_neg h, if_neg (by rintro ⟨ha, hb, -⟩; exact h ⟨ha, hb⟩)]

lemma diagPassCnt_apply (dims : List String) (c : Nat → Nat → Nat) (i2 j2 : Nat) :
    diagPassCnt dims c i2 j2
      = if i2 < dims.length ∧ j2 = i2 ∧ j2 < dims.length then c i2 j2 + 1 else c i2 j2 := by
  unfold diagPassCnt
  exact rowFold_apply dims.length (fun i j => j = i) (fun _ _ x => x + 1)
    (fun i c => bumpAt c i i)
    (fun i hi c i3 j3 => diagCnt_step_apply dims i hi c i3 j3)
    dims.length le_rfl c i2 j2

lemma lowerInnerCnt_apply (dims : List String) (i : Nat) (c : Nat → Nat → Nat)
    (i3 j3 : Nat) :
    lowerInnerCnt dims i c i3 j3
      = if i3 = i ∧ i > j3 ∧ j3 < dims.length then c i3 j3 + 1 else c i3 j3 := by
  simp only [lowerInnerCnt, bumpAt]
  exact innerFold_apply dims.length i (fun j => i > j) (fun _ x => x + 1) c i3 j3

lemma lowerPassCnt_apply (dims : List String) (c : Nat → Nat → Nat) (i2 j2 : Nat) :
    lowerPassCnt dims c i2 j2
      = if i2 < dims.length ∧ i2 > j2 ∧ j2 < dims.length then c i2 j2 + 1 else c i2 j2 := by
  unfold lowerPassCnt
  exact rowFold_apply dims.length (fun i j => i > j) (fun _ _ x => x + 1)
    (fun i c => lowerInnerCnt dims i c)
    (fun i _ c i3 j3 => lowerInnerCnt_apply dims i c i3 j3)
    dims.length le_rfl c i2 j2

lemma writeCount_apply (dims : List String) (i j : Nat) :
    writeCount dims i j = if i < dims.length ∧ j < dims.length then 1 else 0 := by
  unfold writeCount
  rw [lowerPassCnt_apply, diagPassCnt_apply, upperPassCnt_apply]
  split_ifs <;> omega

lemma pairGrid_apply (dims : List String) (i j : Nat) :
    pairGrid dims i j
      = if i < dims.length ∧ i > j ∧ j < dims.length then
          some (.lowerC (dims.getD j "") (dims.getD i "")
            (if i = dims.length - 1 then false else true)
            (if j = 0 then false else true))
        else if i < dims.length ∧ j = i ∧ j < dims.length then
          some (.diagC (dims.getD i "")
            (if i = dims.length - 1 then false else true)
            (if i = 0 then false else true))
        else if i < dims.length ∧ j > i ∧ j < dims.length then
          some (.upperC (dims.getD j "") (dims.getD i "") true true)
        else none := by
  unfold pairGrid
  rw [lowerPass_apply, diagPass_apply, upperPass_apply]
  rfl

lemma card_filter_eq_diag (n : Nat) :
    ((Finset.range n ×ˢ Finset.range n).filter (fun p => p.1 = p.2)).card = n := by
  have hbij : ((Finset.range n ×ˢ Finset.range n).filter (fun p => p.1 = p.2)).card
      = (Finset.range n).card := by
    apply Finset.card_bij (fun (p : Nat × Nat) _ => p.1)
    · intro p hp
      rw [Finset.mem_filter, Finset.mem_product] at hp
      exact hp.1.1
    · rintro ⟨a, b⟩ hp ⟨c, d⟩ hq h
      rw [Finset.mem_filter] at hp hq
      have hb : a = b := hp.2
      have hd : c = d := hq.2
      simp only at h
      subst hb
      subst hd
      rw [h]
    · intro b hb
      refine ⟨(b, b), ?_, rfl⟩
      rw [Finset.mem_filter, Finset.mem_product]
      exact ⟨⟨hb, hb⟩, rfl⟩
  rw [hbij, Finset.card_range]

lemma card_filter_lower_eq_upper (n : Nat) :
    ((Finset.range n ×ˢ Finset.range n).filter (fun p => p.2 < p.1)).card
      = ((Finset.range n ×ˢ Finset.range n).filter (fun p => p.1 < p.2)).card := by
  apply Finset.card_bij (fun (p : Nat × Nat) _ => (p.2, p.1))
  · intro p hp
    rw [Finset.mem_filter, Finset.mem_product] at hp ⊢
    exact ⟨⟨hp.1.2, hp.1.1⟩, hp.2⟩
  · rintro ⟨a, b⟩ hp ⟨c, d⟩ hq h
    simp only [Prod.mk.injEq] at h
    rw [h.1, h.2]
  · rintro ⟨a, b⟩ hb
    rw [Finset.mem_filter, Finset.mem_product] at hb
    refine ⟨(b, a), ?_, rfl⟩
    rw [Finset.mem_filter, Finset.mem_product]
    exact ⟨⟨hb.1.2, hb.1.1⟩, hb.2⟩

lemma card_filter_trichotomy (n : Nat) :
    ((Finset.range n ×ˢ Finset.range n).filter (fun p => p.1 = p.2)).card
      + ((Finset.range n ×ˢ Finset.range n).filter (fun p => p.2 < p.1)).card
      + ((Finset.range n ×ˢ Finset.range n).filter (fun p => p.1 < p.2)).card
      = n * n := by
  have h1 := Finset.filter_card_add_filter_neg_card_eq_card
    (s := Finset.range n ×ˢ Finset.range n) (fun p : Nat × Nat => p.1 = p.2)
  have h2 := Finset.filter_card_add_filter_neg_card_eq_card
    (s := (Finset.range n ×ˢ Finset.range n).filter (fun p : Nat × Nat => ¬ p.1 = p.2))
    (fun p : Nat × Nat => p.2 < p.1)
  rw [Finset.filter_filter, Finset.filter_filter] at h2
  rw [show ((Finset.range n ×ˢ Finset.range n).filter
        (fun p : Nat × Nat => ¬ p.1 = p.2 ∧ p.2 < p.1))
      = (Finset.range n ×ˢ Finset.range n).filter (fun p => p.2 < p.1) from
    Finset.filter_congr (fun p _ => by omega)] at h2
  rw [show ((Finset.range n ×ˢ Finset.range n).filter
        (fun p : Nat × Nat => ¬ p.1 = p.2 ∧ ¬ p.2 < p.1))
      = (Finset.range n ×ˢ Finset.range n).filter (fun p => p.1 < p.2) from
    Finset.filter_congr (fun p _ => by omega)] at h2
  rw [Finset.card_product, Finset.card_range] at h1
  omega

lemma card_filter_lower (n : Nat) :
    ((Finset.range n ×ˢ Finset.range n).filter (fun p => p.2 < p.1)).card
      = n * (n - 1) / 2 := by
  have htri := card_filter_trichotomy n
  have hswap := card_filter_lower_eq_upper n
  have hdiag := card_filter_eq_diag n
  have hmul : n * (n - 1) = n * n - n := by
    cases n with
    | zero => rfl
    | succ k =>
      have hexp : (k + 1) * (k + 1) = (k + 1) * k + (k + 1) := by ring
      rw [Nat.succ_sub_one]
      omega
  rw [hmul]
  omega

lemma card_filter_upper (n : Nat) :
    ((Finset.range n ×ˢ Finset.range n).filter (fun p => p.1 < p.2)).card
      = n * (n - 1) / 2 := by
  rw [← card_filter_lower_eq_upper n]
  exact card_filter_lower n

/-- Claim C1: for `N` distinct dimension names, the grid assembly
populates cell `(i, i)` with the histogram of dimension `i` (exactly `N`
such cells), cell `(i, j)` with `i > j` with the scatter of dimension
`j` (x) versus dimension `i` (y) (exactly `N(N-1)/2` such cells), and
cell `(i, j)` with `j > i` with the mirrored scatter (exactly `N(N-1)/2`
such cells); every other slot stays `None` (no in-range slot does), and
every in-range position is written exactly once. -/
theorem pairGrid_characterization (dims : List String) (_hdistinct : dims.Nodup) :
    (∀ i, i < dims.length →
      pairGrid dims i i = some (.diagC (dims.getD i "")
        (if i = dims.length - 1 then false else true)
        (if i = 0 then false else true))) ∧
    (∀ i j, j < i → i < dims.length →
      pairGrid dims i j = some (.lowerC (dims.getD j "") (dims.getD i "")
        (if i = dims.length - 1 then false else true)
        (if j = 0 then false else true))) ∧
    (∀ i j, i < j → j < dims.length →
      pairGrid dims i j = some (.upperC (dims.getD j "") (dims.getD i "") true true)) ∧
    (∀ i j, dims.length ≤ i ∨ dims.length ≤ j → pairGrid dims i j = none) ∧
    ((Finset.range dims.length ×ˢ Finset.range dims.length).filter
        (fun p => isDiagCell (pairGrid dims p.1 p.2) = true)).card = dims.length ∧
    ((Finset.range dims.length ×ˢ Finset.range dims.length).filter
        (fun p => isLowerCell (pairGrid dims p.1 p.2) = true)).card
      = dims.length * (dims.length - 1) / 2 ∧
    ((Finset.range dims.length ×ˢ Finset.range dims.length).filter
        (fun p => isUpperCell (pairGrid dims p.1 p.2) = true)).card
      = dims.length * (dims.length - 1) / 2 ∧
    ((Finset.range dims.length ×ˢ Finset.range dims.length).filter
        (fun p => pairGrid dims p.1 p.2 = none)).card = 0 ∧
    (∀ i j, writeCount dims i j = if i < dims.length ∧ j < dims.length then 1 else 0) := by
  have hdiag : ∀ i, i < dims.length →
      pairGrid dims i i = some (.diagC (dims.getD i "")
        (if i = dims.length - 1 then false else true)
        (if i = 0 then false else true)) := by
    intro i hi
    rw [pairGrid_apply, if_neg (by omega),
      if_pos (show i < dims.length ∧ i = i ∧ i < dims.length from ⟨hi, rfl, hi⟩)]
  have hlow : ∀ i j, j < i → i < dims.length →
      pairGrid dims i j = some (.lowerC (dims.getD j "") (dims.getD i "")
        (if i = dims.length - 1 then false else true)
        (if j = 0 then false else true)) := by
    intro i j hj hi
    rw [pairGrid_apply,
      if_pos (show i < dims.length ∧ i > j ∧ j < dims.length from ⟨hi, hj, by omega⟩)]
  have hup : ∀ i j, i < j → j < dims.length →
      pairGrid dims i j = some (.upperC (dims.getD j "") (dims.getD i "") true true) := by
    intro i j hij hj
    rw [pairGrid_apply, if_neg (by omega), if_neg (by omega),
      if_pos (show i < dims.length ∧ j > i ∧ j < dims.length from ⟨by omega, hij, hj⟩)]
  have hnone : ∀ i j, dims.length ≤ i ∨ dims.length ≤ j → pairGrid dims i j = none := by
    intro i j hout
    rw [pairGrid_apply, if_neg (by omega), if_neg (by omega), if_neg (by omega)]
  refine ⟨hdiag, hlow, hup, hnone, ?_, ?_, ?_, ?_, writeCount_apply dims⟩
  · rw [show ((Finset.range dims.length ×ˢ Finset.range dims.length).filter
        (fun p => isDiagCell (pairGrid dims p.1 p.2) = true))
      = ((Finset.range dims.length ×ˢ Finset.range dims.length).filter
        (fun p => p.1 = p.2)) from Finset.filter_congr ?_]
    · exact card_filter_eq_diag dims.length
    · intro p hp
      rw [Finset.mem_product, Finset.mem_range, Finset.mem_range] at hp
      rcases Nat.lt_trichotomy p.1 p.2 with h | h | h
      · rw [hup p.1 p.2 h hp.2]
        simp [isDiagCell]
        omega
      · rw [show pairGrid dims p.1 p.2 = pairGrid dims p.1 p.1 by rw [h]]
        rw [hdiag p.1 hp.1]
        simp [isDiagCell, h]
      · rw [hlow p.1 p.2 h hp.1]
        simp [isDiagCell]
        omega
  · rw [show ((Finset.range dims.length ×ˢ Finset.range dims.length).filter
        (fun p => isLowerCell (pairGrid dims p.1 p.2) = true))
      = ((Finset.range dims.length ×ˢ Finset.range dims.length).filter
        (fun p => p.2 < p.1)) from Finset.filter_congr ?_]
    · exact card_filter_lower dims.length
    · intro p hp
      rw [Finset.mem_product, Finset.mem_range, Finset.mem_range] at hp
      rcases Nat.lt_trichotomy p.1 p.2 with h | h | h
      · rw [hup p.1 p.2 h hp.2]
        simp [isLowerCell]
        omega
      · rw [show pairGrid dims p.1 p.2 = pairGrid dims p.1 p.1 by rw [h]]
        rw [hdiag p.1 hp.1]
        simp [isLowerCell]
        omega
      · rw [hlow p.1 p.2 h hp.1]
        simp [isLowerCell, h]
  · rw [show ((Finset.range dims.length ×ˢ Finset.range dims.length).filter
        (fun p => isUpperCell (pairGrid dims p.1 p.2) = true))
      = ((Finset.range dims.length ×ˢ Finset.range dims.length).filter
        (fun p => p.1 < p.2)) from Finset.filter_congr ?_]
    · exact card_filter_upper dims.length
    · intro p hp
      rw [Finset.mem_product, Finset.mem_range, Finset.mem_range] at hp
      rcases Nat.lt_trichotomy p.1 p.2 with h | h | h
      · rw [hup p.1 p.2 h hp.2]
        simp [isUpperCell, h]
      · rw [show pairGrid dims p.1 p.2 = pairGrid dims p.1 p.1 by rw [h]]
        rw [hdiag p.1 hp.1]
        simp [isUpperCell]
        omega
      · rw [hlow p.1 p.2 h hp.1]
        simp [isUpperCell]
        omega
  · rw [Finset.card_eq_zero, Finset.filter_eq_empty_iff]
    intro p hp
    rw [Finset.mem_product, Finset.mem_range, Finset.mem_range] at hp
    rcases Nat.lt_trichotomy p.1 p.2 with h | h | h
    · rw [hup p.1 p.2 h hp.2]
      simp
    · rw [show pairGrid dims p.1 p.2 = pairGrid dims p.1 p.1 by rw [h]]
      rw [hdiag p.1 hp.1]
      simp
    · rw [hlow p.1 p.2 h hp.1]
      simp

/-- Witness for C1 with the two distinct dimensions `["a", "b"]`: the
diagonal cell `(0, 0)` holds the histogram of `"a"` (outer-edge y axis,
suppressed x axis), and position `(0, 1)` is written exactly once. -/
theorem pairGrid_characterization_witness :
    pairGrid ["a", "b"] 0 0 = some (.diagC "a" true false) ∧
    writeCount ["a", "b"] 0 1 = 1 := by
  have h := pairGrid_characterization ["a", "b"] (by decide)
  constructor
  · have hd := h.1 0 (by decide)
    simpa using hd
  · have hw := h.2.2.2.2.2.2.2.2 0 1
    simpa using hw

end DenebMatrix

namespace DenebThemes

lemma sizeOf_lookupJ : ∀ (es : List (String × JVal)) (k : String) (v : JVal),
    lookupJ es k = some v → sizeOf v < sizeOf es := by
  intro es
  induction es with
  | nil => intro k v h; simp [lookupJ] at h
  | cons hd t ih =>
    intro k v h
    obtain ⟨k2, v2⟩ := hd
    simp only [lookupJ] at h
    by_cases hk : k2 = k
    · rw [if_pos hk] at h
      injection h with h2
      subst h2
      simp only [List.cons.sizeOf_spec, Prod.mk.sizeOf_spec]
      omega
    · rw [if_neg hk] at h
      have := ih k v h
      simp only [List.cons.sizeOf_spec, Prod.mk.sizeOf_spec]
      omega

lemma lookupJ_eq_none (l : List (String × JVal)) (k : String) :
    lookupJ l k = none ↔ k ∉ l.map Prod.fst := by
  induction l with
  | nil => simp [lookupJ]
  | cons hd t ih =>
    obtain ⟨k2, v2⟩ := hd
    simp only [lookupJ, List.map_cons, List.mem_cons]
    by_cases hk : k2 = k
    · rw [if_pos hk]
      simp [hk]
    · rw [if_neg hk]
      rw [ih]
      constructor
      · intro h hmem
        rcases hmem with h2 | h2
        · exact hk h2.symm
        · exact h h2
      · intro h
        exact fun h2 => h (Or.inr h2)

lemma lookupJ_insertCombine (d : List (String × JVal)) (k : String) (w : JVal)
    (k2 : String) :
    lookupJ (insertCombine d k w) k2
      = if k2 = k then
          (match lookupJ d k with
           | some v => some (combine v w)
           | none => some w)
        else lookupJ d k2 := by
  induction d with
  | nil =>
    simp only [insertCombine, lookupJ]
    by_cases h : k2 = k
    · rw [if_pos (h.symm), if_pos h]
    · rw [if_neg (fun h2 => h h2.symm), if_neg h]
  | cons hd t ih =>
    obtain ⟨k3, v3⟩ := hd
    simp only [insertCombine]
    by_cases h3 : k3 = k
    · subst h3
      rw [if_pos rfl]
      rw [show lookupJ ((k3, v3) :: t) k3 = some v3 from by simp [lookupJ]]
      simp only [lookupJ]
      by_cases h2 : k2 = k3
      · rw [if_pos h2, if_pos h2.symm]
      · rw [if_neg h2, if_neg (fun h => h2 h.symm), if_neg (fun h => h2 h.symm)]
    · rw [if_neg h3]
      simp only [lookupJ]
      rw [show (if k3 = k then some v3 else lookupJ t k) = lookupJ t k from if_neg h3]
      by_cases h2 : k3 = k2
      · rw [if_neg (fun h => h3 (h2.trans h)), if_pos h2, if_pos h2]
      · rw [if_neg h2, if_neg h2, ih]

lemma mem_keys_insertCombine_self (d : List (String × JVal)) (k : String) (w : JVal) :
    k ∈ (insertCombine d k w).map Prod.fst := by
  induction d with
  | nil => simp [insertCombine]
  | cons hd t ih =>
    obtain ⟨k3, v3⟩ := hd
    simp only [insertCombine]
    by_cases h3 : k3 = k
    · rw [if_pos h3]
      simp [h3]
    · rw [if_neg h3]
      simp only [List.map_cons, List.mem_cons]
      exact Or.inr ih

lemma mem_keys_insertCombine_mono (d : List (String × JVal)) (k : String) (w : JVal)
    (k2 : String) (h : k2 ∈ d.map Prod.fst) :
    k2 ∈ (insertCombine d k w).map Prod.fst := by
  induction d with
  | nil => simp at h
  | cons hd t ih =>
    obtain ⟨k3, v3⟩ := hd
    simp only [List.map_cons, List.mem_cons] at h
    simp only [insertCombine]
    by_cases h3 : k3 = k
    · rw [if_pos h3]
      simp only [List.map_cons, List.mem_cons]
      exact h
    · rw [if_neg h3]
      simp only [List.map_cons, List.mem_cons]
      rcases h with h | h
      · exact Or.inl h
      · exact Or.inr (ih h)

lemma mem_keys_insertCombine_elim (d : List (String × JVal)) (k : String) (w : JVal)
    (k2 : String) (h : k2 ∈ (insertCombine d k w).map Prod.fst) :
    k2 ∈ d.map Prod.fst ∨ k2 = k := by
  induction d with
  | nil =>
    simp only [insertCombine, List.map_cons, List.map_nil, List.mem_singleton] at h
    exact Or.inr h
  | cons hd t ih =>
    obtain ⟨k3, v3⟩ := hd
    simp only [insertCombine] at h
    by_cases h3 : k3 = k
    · rw [if_pos h3] at h
      simp only [List.map_cons, List.mem_cons] at h
      rcases h with h | h
      · exact Or.inl (by simp [h])
      · exact Or.inl (by simp only [List.map_cons, List.mem_cons]; exact Or.inr h)
    · rw [if_neg h3] at h
      simp only [List.map_cons, List.mem_cons] at h
      rcases h with h | h
      · exact Or.inl (by simp [h])
      · rcases ih h with h2 | h2
        · exact Or.inl (by simp only [List.map_cons, List.mem_cons]; exact Or.inr h2)
        · exact Or.inr h2

lemma wfEntries_cons (k : String) (v : JVal) (t : List (String × JVal)) :
    wfEntries ((k, v) :: t) = true
      ↔ (∀ p ∈ t, p.1 ≠ k) ∧ wfJ v = true ∧ wfEntries t = true := by
  simp only [wfEntries, Bool.and_eq_true, List.all_eq_true]
  constructor
  · rintro ⟨⟨h1, h2⟩, h3⟩
    exact ⟨fun p hp => by simpa using h1 p hp, h2, h3⟩
  · rintro ⟨h1, h2, h3⟩
    exact ⟨⟨fun p hp => by simpa using h1 p hp, h2⟩, h3⟩

lemma wfEntries_nodup (es : List (String × JVal)) (h : wfEntries es = true) :
    (es.map Prod.fst).Nodup := by
  induction es with
  | nil => simp
  | cons hd t ih =>
    obtain ⟨k, v⟩ := hd
    rw [wfEntries_cons] at h
    simp only [List.map_cons, List.nodup_cons]
    constructor
    · intro hmem
      rcases List.mem_map.mp hmem with ⟨p, hp, hp2⟩
      exact h.1 p hp hp2
    · exact ih h.2.2

lemma wfEntries_lookup (es : List (String × JVal)) (k : String) (v : JVal)
    (h : wfEntries es = true) (hl : lookupJ es k = some v) : wfJ v = true := by
  induction es with
  | nil => simp [lookupJ] at hl
  | cons hd t ih =>
    obtain ⟨k2, v2⟩ := hd
    rw [wfEntries_cons] at h
    simp only [lookupJ] at hl
    by_cases hk : k2 = k
    · rw [if_pos hk] at hl
      injection hl with hl2
      subst hl2
      exact h.2.1
    · rw [if_neg hk] at hl
      exact ih h.2.2 hl

lemma lookupJ_mergeEntries (s : List (String × JVal))
    (hnd : (s.map Prod.fst).Nodup) :
    ∀ (d : List (String × JVal)) (k : String),
    lookupJ (mergeEntries d s) k
      = match lookupJ d k, lookupJ s k with
        | some v, some w => some (combine v w)
        | some v, none => some v
        | none, r => r := by
  induction s with
  | nil =>
    intro d k
    simp only [mergeEntries, lookupJ]
    cases h : lookupJ d k <;> simp
  | cons hd rest ih =>
    intro d k
    obtain ⟨k0, w0⟩ := hd
    simp only [List.map_cons, List.nodup_cons] at hnd
    obtain ⟨hk0, hndrest⟩ := hnd
    simp only [mergeEntries]
    rw [ih hndrest]
    rw [lookupJ_insertCombine]
    by_cases h : k = k0
    · subst h
      rw [if_pos rfl]
      have hnone : lookupJ rest k = none := (lookupJ_eq_none rest k).mpr hk0
      rw [hnone]
      rw [show lookupJ ((k, w0) :: rest) k = some w0 from by simp [lookupJ]]
      cases hdk : lookupJ d k <;> simp
    · rw [if_neg h]
      rw [show lookupJ ((k0, w0) :: rest) k = lookupJ rest k from by
        simp only [lookupJ]
        rw [if_neg (fun h2 => h h2.symm)]]

lemma lookupJ_mem (l : List (String × JVal)) (k : String) (v : JVal)
    (h : lookupJ l k = some v) : k ∈ l.map Prod.fst := by
  by_contra hnm
  rw [(lookupJ_eq_none l k).mpr hnm] at h
  exact Option.noConfusion h

lemma noCollideEntries_iff_lookup (d s : List (String × JVal))
    (hs : wfEntries s = true) :
    noCollideEntries d s = true
      ↔ ∀ k v w, lookupJ d k = some v → lookupJ s k = some w →
          noCollide v w = true := by
  induction s with
  | nil =>
    simp [noCollideEntries, lookupJ]
  | cons hd rest ih =>
    obtain ⟨k0, w0⟩ := hd
    rw [wfEntries_cons] at hs
    obtain ⟨hfresh, hw0, hrest⟩ := hs
    simp only [noCollideEntries, Bool.and_eq_true]
    rw [ih hrest]
    constructor
    · rintro ⟨hhead, htail⟩ k v w hdk hsk
      simp only [lookupJ] at hsk
      by_cases hk : k0 = k
      · rw [if_pos hk] at hsk
        injection hsk with hsk2
        subst hsk2
        subst hk
        rw [hdk] at hhead
        exact hhead
      · rw [if_neg hk] at hsk
        exact htail k v w hdk hsk
    · intro h
      constructor
      · cases hdk : lookupJ d k0 with
        | none => rfl
        | some v => exact h k0 v w0 hdk (by simp [lookupJ])
      · intro k v w hdk hsk
        have hkmem : k ∈ rest.map Prod.fst := lookupJ_mem rest k w hsk
        have hk0 : k0 ≠ k := by
          intro heq
          rcases List.mem_map.mp hkmem with ⟨p, hp, hpk⟩
          exact hfresh p hp (hpk.trans heq.symm)
        apply h k v w hdk
        simp only [lookupJ]
        rw [if_neg hk0]
        exact hsk

mutual

theorem wf_combine : ∀ (a b : JVal), wfJ a = true → wfJ b = true →
    wfJ (combine a b) = true
  | .leaf _, .leaf _, _, hb => by simpa [combine] using hb
  | .leaf _, .obj _, _, hb => by simpa [combine] using hb
  | .obj _, .leaf _, _, hb => by simpa [combine] using hb
  | .obj da, .obj db, ha, hb => by
    simp only [combine, wfJ]
    simp only [wfJ] at ha hb
    exact wfEntries_mergeEntries da db ha hb
termination_by _a b => (sizeOf b, 0, 0)

theorem wf_insertCombine : ∀ (d : List (String × JVal)) (k : String) (w : JVal),
    wfEntries d = true → wfJ w = true → wfEntries (insertCombine d k w) = true
  | [], k, w, _, hw => by
    simp only [insertCombine]
    rw [wfEntries_cons]
    exact ⟨by simp, hw, by simp [wfEntries]⟩
  | (k3, v3) :: t, k, w, hd, hw => by
    rw [wfEntries_cons] at hd
    obtain ⟨hfresh, hv3, ht⟩ := hd
    simp only [insertCombine]
    by_cases h3 : k3 = k
    · rw [if_pos h3]
      rw [wfEntries_cons]
      exact ⟨hfresh, wf_combine v3 w hv3 hw, ht⟩
    · rw [if_neg h3]
      rw [wfEntries_cons]
      refine ⟨?_, hv3, wf_insertCombine t k w ht hw⟩
      intro p hp
      have hpk := List.mem_map_of_mem Prod.fst hp
      rcases mem_keys_insertCombine_elim t k w p.1 hpk with h | h
      · rcases List.mem_map.mp h with ⟨q, hq, hqk⟩
        rw [← hqk]
        exact hfresh q hq
      · rw [h]
        exact fun h2 => h3 h2.symm
termination_by d _k w => (sizeOf w, 1, sizeOf d)

theorem wfEntries_mergeEntries : ∀ (d s : List (String × JVal)),
    wfEntries d = true → wfEntries s = true → wfEntries (mergeEntries d s) = true
  | d, [], hd, _ => by simpa [mergeEntries] using hd
  | d, (k, w) :: rest, hd, hs => by
    rw [wfEntries_cons] at hs
    obtain ⟨hfresh, hw, hrest⟩ := hs
    simp only [mergeEntries]
    exact wfEntries_mergeEntries (insertCombine d k w) rest
      (wf_insertCombine d k w hd hw) hrest
termination_by _d s => (sizeOf s, 2, 0)

end

theorem nc_combine_right : ∀ (a b c : JVal), wfJ b = true → wfJ c = true →
    noCollide a b = true → noCollide a c = true →
    noCollide a (combine b c) = true
  | .leaf _, _, _, _, _, hab, _ => by simp [noCollide] at hab
  | .obj _, .leaf _, _, _, _, hab, _ => by simp [noCollide] at hab
  | .obj _, .obj _, .leaf _, _, _, _, hac => by simp [noCollide] at hac
  | .obj da, .obj db, .obj dc, hwb, hwc, hab, hac => by
    simp only [wfJ] at hwb hwc
    simp only [combine, noCollide] at hab hac ⊢
    rw [noCollideEntries_iff_lookup _ _ (wfEntries_mergeEntries db dc hwb hwc)]
    intro k v w hdv hw
    rw [lookupJ_mergeEntries dc (wfEntries_nodup dc hwc) db k] at hw
    cases hb : lookupJ db k with
    | none =>
      cases hc : lookupJ dc k with
      | none => simp [hb, hc] at hw
      | some wc =>
        simp only [hb, hc] at hw
        injection hw with h2
        rw [← h2]
        exact ((noCollideEntries_iff_lookup da dc hwc).mp hac) k v wc hdv hc
    | some wb =>
      cases hc : lookupJ dc k with
      | none =>
        simp only [hb, hc] at hw
        injection hw with h2
        rw [← h2]
        exact ((noCollideEntries_iff_lookup da db hwb).mp hab) k v wb hdv hb
      | some wc =>
        simp only [hb, hc] at hw
        injection hw with h2
        rw [← h2]
        exact nc_combine_right v wb wc (wfEntries_lookup db k wb hwb hb)
          (wfEntries_lookup dc k wc hwc hc)
          (((noCollideEntries_iff_lookup da db hwb).mp hab) k v wb hdv hb)
          (((noCollideEntries_iff_lookup da dc hwc).mp hac) k v wc hdv hc)
termination_by _a _b c => sizeOf c
decreasing_by
  have hlt := sizeOf_lookupJ dc k wc hc
  simp only [JVal.obj.sizeOf_spec]
  omega

lemma insertCombine_cons (a : String) (b : JVal) (t : List (String × JVal))
    (k : String) (w : JVal) :
    insertCombine ((a, b) :: t) k w
      = if a = k then (a, combine b w) :: t else (a, b) :: insertCombine t k w := by
  simp [insertCombine]

lemma insertCombine_comm : ∀ (d : List (String × JVal)) (k : String) (w : JVal)
    (k1 : String) (w1 : JVal), k ≠ k1 → k ∈ d.map Prod.fst →
    insertCombine (insertCombine d k1 w1) k w
      = insertCombine (insertCombine d k w) k1 w1 := by
  intro d
  induction d with
  | nil =>
    intro k w k1 w1 hne hmem
    simp at hmem
  | cons hd t ih =>
    intro k w k1 w1 hne hmem
    obtain ⟨k3, v3⟩ := hd
    by_cases h31 : k3 = k1
    · have h3k : ¬ (k3 = k) := fun h => hne (h.symm.trans h31)
      rw [insertCombine_cons k3 v3 t k1 w1, if_pos h31]
      rw [insertCombine_cons k3 (combine v3 w1) t k w, if_neg h3k]
      rw [insertCombine_cons k3 v3 t k w, if_neg h3k]
      rw [insertCombine_cons k3 v3 (insertCombine t k w) k1 w1, if_pos h31]
    · by_cases h3k : k3 = k
      · rw [insertCombine_cons k3 v3 t k1 w1, if_neg h31]
        rw [insertCombine_cons k3 v3 (insertCombine t k1 w1) k w, if_pos h3k]
        rw [insertCombine_cons k3 v3 t k w, if_pos h3k]
        rw [insertCombine_cons k3 (combine v3 w) t k1 w1, if_neg h31]
      · have hmem2 : k ∈ t.map Prod.fst := by
          simp only [List.map_cons, List.mem_cons] at hmem
          rcases hmem with h | h
          · exact absurd h.symm h3k
          · exact h
        rw [insertCombine_cons k3 v3 t k1 w1, if_neg h31]
        rw [insertCombine_cons k3 v3 (insertCombine t k1 w1) k w, if_neg h3k]
        rw [insertCombine_cons k3 v3 t k w, if_neg h3k]
        rw [insertCombine_cons k3 v3 (insertCombine t k w) k1 w1, if_neg h31]
        rw [ih k w k1 w1 hne hmem2]

lemma insertCombine_mergeEntries_comm : ∀ (s d : List (String × JVal))
    (k : String) (w : JVal), k ∈ d.map Prod.fst → k ∉ s.map Prod.fst →
    insertCombine (mergeEntries d s) k w = mergeEntries (insertCombine d k w) s := by
  intro s
  induction s with
  | nil =>
    intro d k w hmem hnot
    simp [mergeEntries]
  | cons hd s2 ih =>
    intro d k w hmem hnot
    obtain ⟨k1, w1⟩ := hd
    simp only [List.map_cons, List.mem_cons] at hnot
    push_neg at hnot
    obtain ⟨hk1, hs2⟩ := hnot
    simp only [mergeEntries]
    rw [ih (insertCombine d k1 w1) k w (mem_keys_insertCombine_mono d k1 w1 k hmem) hs2]
    rw [insertCombine_comm d k w k1 w1 hk1 hmem]

lemma insertCombine_insertCombine_same : ∀ (A : List (String × JVal)) (k : String)
    (w0 w : JVal),
    (∀ vA, lookupJ A k = some vA →
      combine (combine vA w0) w = combine vA (combine w0 w)) →
    insertCombine (insertCombine A k w0) k w = insertCombine A k (combine w0 w) := by
  intro A
  induction A with
  | nil =>
    intro k w0 w _
    rw [show insertCombine ([] : List (String × JVal)) k w0 = [(k, w0)] from by
      simp [insertCombine]]
    rw [insertCombine_cons k w0 [] k w, if_pos rfl]
    rw [show insertCombine ([] : List (String × JVal)) k (combine w0 w)
          = [(k, combine w0 w)] from by simp [insertCombine]]
  | cons hd t ih =>
    intro k w0 w hassoc
    obtain ⟨k3, v3⟩ := hd
    by_cases h3 : k3 = k
    · rw [insertCombine_cons k3 v3 t k w0, if_pos h3]
      rw [insertCombine_cons k3 (combine v3 w0) t k w, if_pos h3]
      rw [insertCombine_cons k3 v3 t k (combine w0 w), if_pos h3]
      rw [hassoc v3 (by simp only [lookupJ]; rw [if_pos h3])]
    · rw [insertCombine_cons k3 v3 t k w0, if_neg h3]
      rw [insertCombine_cons k3 v3 (insertCombine t k w0) k w, if_neg h3]
      rw [insertCombine_cons k3 v3 t k (combine w0 w), if_neg h3]
      rw [ih k w0 w (fun vA hvA => hassoc vA (by
        simp only [lookupJ]
        rw [if_neg h3]
        exact hvA))]

mutual

theorem combine_assoc : ∀ (a b c : JVal), wfJ a = true → wfJ b = true →
    wfJ c = true → noCollide a b = true → noCollide b c = true →
    noCollide a c = true →
    combine (combine a b) c = combine a (combine b c)
  | .leaf _, _, _, _, _, _, hab, _, _ => by simp [noCollide] at hab
  | .obj _, .leaf _, _, _, _, _, hab, _, _ => by simp [noCollide] at hab
  | .obj _, .obj _, .leaf _, _, _, _, _, hbc, _ => by simp [noCollide] at hbc
  | .obj da, .obj db, .obj dc, hwa, hwb, hwc, hab, hbc, hac => by
    simp only [wfJ] at hwa hwb hwc
    simp only [noCollide] at hab hbc hac
    simp only [combine]
    rw [mergeEntries_assoc da db dc hwa hwb hwc hab hbc hac]
termination_by _a _b c => (sizeOf c, 0, 0)

theorem insertCombine_mergeEntries_dist : ∀ (A B : List (String × JVal))
    (k : String) (w : JVal), wfEntries A = true → wfEntries B = true →
    wfJ w = true → noCollideEntries A B = true →
    (∀ v, lookupJ A k = some v → noCollide v w = true) →
    (∀ v, lookupJ B k = some v → noCollide v w = true) →
    insertCombine (mergeEntries A B) k w = mergeEntries A (insertCombine B k w)
  | A, [], k, w, _, _, _, _, _, _ => by
    simp [mergeEntries, insertCombine]
  | A, (k0, w0) :: B2, k, w, hwA, hwB, hww, hAB, hkA, hkB => by
    rw [wfEntries_cons] at hwB
    obtain ⟨hfreshB, hww0, hwB2⟩ := hwB
    simp only [noCollideEntries, Bool.and_eq_true] at hAB
    obtain ⟨hABhead, hABtail⟩ := hAB
    by_cases hk : k0 = k
    · subst hk
      rw [show mergeEntries A ((k0, w0) :: B2)
            = mergeEntries (insertCombine A k0 w0) B2 from by simp [mergeEntries]]
      have hself : k0 ∈ (insertCombine A k0 w0).map Prod.fst :=
        mem_keys_insertCombine_self A k0 w0
      have hnotB2 : k0 ∉ B2.map Prod.fst := by
        intro hmem
        rcases List.mem_map.mp hmem with ⟨p, hp, hpk⟩
        exact hfreshB p hp hpk
      rw [insertCombine_mergeEntries_comm B2 (insertCombine A k0 w0) k0 w hself hnotB2]
      have hassoc : ∀ vA, lookupJ A k0 = some vA →
          combine (combine vA w0) w = combine vA (combine w0 w) := by
        intro vA hvA
        have hv_w0 : noCollide vA w0 = true := by
          rw [hvA] at hABhead
          exact hABhead
        have hw0_w : noCollide w0 w = true := hkB w0 (by simp [lookupJ])
        have hv_w : noCollide vA w = true := hkA vA hvA
        exact combine_assoc vA w0 w (wfEntries_lookup A k0 vA hwA hvA) hww0 hww
          hv_w0 hw0_w hv_w
      rw [insertCombine_insertCombine_same A k0 w0 w hassoc]
      rw [insertCombine_cons k0 w0 B2 k0 w, if_pos rfl]
      rw [show mergeEntries A ((k0, combine w0 w) :: B2)
            = mergeEntries (insertCombine A k0 (combine w0 w)) B2 from by
        simp [mergeEntries]]
    · rw [insertCombine_cons k0 w0 B2 k w, if_neg hk]
      rw [show mergeEntries A ((k0, w0) :: B2)
            = mergeEntries (insertCombine A k0 w0) B2 from by simp [mergeEntries]]
      rw [show mergeEntries A ((k0, w0) :: insertCombine B2 k w)
            = mergeEntries (insertCombine A k0 w0) (insertCombine B2 k w) from by
        simp [mergeEntries]]
      apply insertCombine_mergeEntries_dist (insertCombine A k0 w0) B2 k w
        (wf_insertCombine A k0 w0 hwA hww0) hwB2 hww ?hAB2 ?hkA2 ?hkB2
      case hAB2 =>
        rw [noCollideEntries_iff_lookup _ B2 hwB2]
        intro k2 v u hv hu
        have hk2 : k2 ≠ k0 := by
          intro heq
          have hm := lookupJ_mem B2 k2 u hu
          rcases List.mem_map.mp hm with ⟨p, hp, hpk⟩
          exact hfreshB p hp (hpk.trans heq)
        rw [lookupJ_insertCombine, if_neg hk2] at hv
        exact ((noCollideEntries_iff_lookup A B2 hwB2).mp hABtail) k2 v u hv hu
      case hkA2 =>
        intro v hv
        rw [lookupJ_insertCombine, if_neg (fun h => hk h.symm)] at hv
        exact hkA v hv
      case hkB2 =>
        intro v hv
        apply hkB v
        simp only [lookupJ]
        rw [if_neg hk]
        exact hv
termination_by _A B _k w => (sizeOf w, 1, sizeOf B)

theorem mergeEntries_assoc : ∀ (A B C : List (String × JVal)),
    wfEntries A = true → wfEntries B = true → wfEntries C = true →
    noCollideEntries A B = true → noCollideEntries B C = true →
    noCollideEntries A C = true →
    mergeEntries (mergeEntries A B) C = mergeEntries A (mergeEntries B C)
  | _, _, [], _, _, _, _, _, _ => by simp [mergeEntries]
  | A, B, (k, w) :: C2, hwA, hwB, hwC, hAB, hBC, hAC => by
    rw [wfEntries_cons] at hwC
    obtain ⟨hfreshC, hww, hwC2⟩ := hwC
    simp only [noCollideEntries, Bool.and_eq_true] at hBC hAC
    obtain ⟨hBhead, hBC2⟩ := hBC
    obtain ⟨hAhead, hAC2⟩ := hAC
    have hkB : ∀ v, lookupJ B k = some v → noCollide v w = true := by
      intro v hv
      rw [hv] at hBhead
      exact hBhead
    have hkA : ∀ v, lookupJ A k = some v → noCollide v w = true := by
      intro v hv
      rw [hv] at hAhead
      exact hAhead
    rw [show mergeEntries (mergeEntries A B) ((k, w) :: C2)
          = mergeEntries (insertCombine (mergeEntries A B) k w) C2 from by
      simp [mergeEntries]]
    rw [show mergeEntries B ((k, w) :: C2)
          = mergeEntries (insertCombine B k w) C2 from by simp [mergeEntries]]
    rw [insertCombine_mergeEntries_dist A B k w hwA hwB hww hAB hkA hkB]
    apply mergeEntries_assoc A (insertCombine B k w) C2 hwA
      (wf_insertCombine B k w hwB hww) hwC2 ?hABp ?hBCp hAC2
    case hABp =>
      rw [noCollideEntries_iff_lookup _ _ (wf_insertCombine B k w hwB hww)]
      intro k2 v u hv hu
      rw [lookupJ_insertCombine] at hu
      by_cases h2 : k2 = k
      · rw [if_pos h2] at hu
        subst h2
        cases hBk : lookupJ B k2 with
        | none =>
          rw [hBk] at hu
          injection hu with h3
          rw [← h3]
          exact hkA v hv
        | some wb =>
          rw [hBk] at hu
          injection hu with h3
          rw [← h3]
          exact nc_combine_right v wb w (wfEntries_lookup B k2 wb hwB hBk) hww
            (((noCollideEntries_iff_lookup A B hwB).mp hAB) k2 v wb hv hBk)
            (hkA v hv)
      · rw [if_neg h2] at hu
        exact ((noCollideEntries_iff_lookup A B hwB).mp hAB) k2 v u hv hu
    case hBCp =>
      rw [noCollideEntries_iff_lookup _ C2 hwC2]
      intro k2 v u hv hu
      have hk2 : k2 ≠ k := by
        intro heq
        have hm := lookupJ_mem C2 k2 u hu
        rcases List.mem_map.mp hm with ⟨p, hp, hpk⟩
        exact hfreshC p hp (hpk.trans heq)
      rw [lookupJ_insertCombine, if_neg hk2] at hv
      exact ((noCollideEntries_iff_lookup B C2 hwC2).mp hBC2) k2 v u hv hu
termination_by _A _B C => (sizeOf C, 2, 0)

end

lemma leafAt_combine_right : ∀ (p : List String) (x e : JVal) (a : Atom),
    wfJ e = true → leafAt e p = some a → leafAt (combine x e) p = some a := by
  intro p
  induction p with
  | nil =>
    intro x e a _ he
    cases e with
    | leaf b =>
      cases x with
      | leaf c => simpa [combine] using he
      | obj d => simpa [combine] using he
    | obj es => simp [leafAt] at he
  | cons k p2 ih =>
    intro x e a hwf he
    cases e with
    | leaf b => simp [leafAt] at he
    | obj es =>
      simp only [leafAt] at he
      cases hes : lookupJ es k with
      | none => rw [hes] at he; simp at he
      | some v =>
        rw [hes] at he
        simp only [wfJ] at hwf
        cases x with
        | leaf c =>
          rw [show combine (.leaf c) (.obj es) = .obj es from by simp [combine]]
          simp only [leafAt]
          rw [hes]
          exact he
        | obj d =>
          rw [show combine (.obj d) (.obj es) = .obj (mergeEntries d es) from by
            simp [combine]]
          simp only [leafAt]
          rw [lookupJ_mergeEntries es (wfEntries_nodup es hwf) d k, hes]
          cases hdk : lookupJ d k with
          | none =>
            simp only
            exact he
          | some vd =>
            simp only
            exact ih vd v a (wfEntries_lookup es k v hwf hes) he

/-- Claim C7: the deep merge of `set_style` is associative when leaf
keys do not collide (every path shared by two fragments passes only
through dict nodes), and it is right-biased at leaf keys: a leaf
assigned by the later fragment survives the merge unchanged; since the
`extra` fragment is merged last, each of its leaves wins over every
named option fragment in the registered theme. -/
theorem setStyle_merge_properties :
    (∀ a b c : JVal, wfJ a = true → wfJ b = true → wfJ c = true →
      noCollide a b = true → noCollide b c = true → noCollide a c = true →
      combine (combine a b) c = combine a (combine b c)) ∧
    (∀ (x e : JVal) (p : List String) (v : Atom), wfJ e = true →
      leafAt e p = some v → leafAt (combine x e) p = some v) ∧
    (∀ (border : Bool) (font_family : Option String)
        (font_size font_size_label font_size_title : Option Int)
        (font_weight font_weight_label font_weight_title : Option String)
        (grid : Bool) (height width : Int) (extra : JVal)
        (p : List String) (v : Atom), wfJ extra = true →
      leafAt extra p = some v →
      leafAt (setStyleTheme border font_family font_size font_size_label
        font_size_title font_weight font_weight_label font_weight_title grid
        height width extra) p = some v) := by
  refine ⟨fun a b c => combine_assoc a b c, ?_, ?_⟩
  · intro x e p v hw he
    exact leafAt_combine_right p x e v hw he
  · intro border ff fs fsl fst fw fwl fwt grid height width extra p v hw he
    unfold setStyleTheme setStyleFragments
    simp only [List.foldl_cons, List.foldl_nil]
    exact leafAt_combine_right p _ extra v hw he

/-- Witness for C7: associativity at three disjoint one-leaf fragments,
and the rightmost fragment's leaf surviving a merge into an empty dict. -/
theorem setStyle_merge_properties_witness :
    combine (combine (JVal.obj [("x", .leaf (.int 1))])
        (JVal.obj [("y", .leaf (.int 2))])) (JVal.obj [("z", .leaf (.int 3))])
      = combine (JVal.obj [("x", .leaf (.int 1))])
          (combine (JVal.obj [("y", .leaf (.int 2))])
            (JVal.obj [("z", .leaf (.int 3))])) ∧
    leafAt (combine (JVal.obj []) (JVal.obj [("k", .leaf (.int 7))])) ["k"]
      = some (.int 7) :=
  ⟨setStyle_merge_properties.1 _ _ _
     (by simp [wfJ, wfEntries])
     (by simp [wfJ, wfEntries])
     (by simp [wfJ, wfEntries])
     (by simp [noCollide, noCollideEntries, lookupJ])
     (by simp [noCollide, noCollideEntries, lookupJ])
     (by simp [noCollide, noCollideEntries, lookupJ]),
   setStyle_merge_properties.2.1 (JVal.obj []) (JVal.obj [("k", .leaf (.int 7))])
     ["k"] (.int 7)
     (by simp [wfJ, wfEntries])
     (by simp [leafAt, lookupJ])⟩

end DenebThemes
